import Mathlib

/-!
# A verification development for `response_writer.go`

The file embeds the `appResponseWriter` type of package `web` and its methods
as Lean definitions and proves properties of them.

Modelling conventions:

* the methods are embedded twice. In the first embedding a `[]byte` value is a
  list of bytes and Go `int` is `Int`; it is used for the properties that depend
  only on the recorded status, on lengths, on whether a call succeeds and on
  what a call returns from the delegate;
* the second embedding (namespace `Mem`) keeps the slices in an explicit heap,
  as views of shared arrays, and the counter in a machine `int` that wraps
  around; it is used for the properties about the bytes that are retained or
  forwarded and about the value of the counter, where the memory behind a
  slice and the range of `int` matter;
* the delegate (the embedded `http.ResponseWriter`) is an arbitrary state
  machine: a state type `σ` and a table of methods over it;
* a run-time panic of the wrapper's own code is an explicit outcome.
-/

namespace Web

/-- One byte. -/
abbrev Byte := Fin 256

/-- The contents of a `[]byte`. -/
abbrev Bytes := List Byte

/-- Values of Go's `error` interface that occur here (`nil` is `none` of
`Option GoError`). -/
inductive GoError where
  /-- The value `io.EOF`. -/
  | EOF
  /-- The value built by `fmt.Errorf(msg)`. -/
  | Errorf (msg : String)
  /-- An error value made by the delegate, identified by a number. -/
  | delegate (id : Nat)
deriving DecidableEq, Repr

/-- Run-time panics raised by the wrapper's own statements. -/
inductive Panic where
  /-- Raised by `make([]byte, n)` with `n < 0`. -/
  | makesliceLenOutOfRange
  /-- Raised by a failed single-value type assertion `x.(T)`. -/
  | interfaceConversion
deriving DecidableEq, Repr

/-- Either a normal return with a value or a panic. -/
inductive Outcome (α : Type) where
  | ok (v : α)
  | panic (p : Panic)
deriving DecidableEq, Repr

/-- A `net.Conn` handle (`nil` is `none` of `Option Conn`). -/
abbrev Conn := Nat

/-- A `*bufio.ReadWriter` handle (`nil` is `none`). -/
abbrev BufioReadWriter := Nat

/-- A `<-chan bool` handle. -/
abbrev Chan := Nat

/-- The message of the error `Hijack` builds when the delegate is no
`http.Hijacker`. -/
def hijackMsg : String := "the ResponseWriter doesn't support the Hijacker interface"

/-- The constant `http.StatusOK`. -/
def StatusOK : Int := 200

/-! ## `bytes.Buffer` (Go standard library) -/

/-- The two fields of `bytes.Buffer` that determine its contents: the unread
bytes are `buf[off:]`. -/
structure Buffer where
  buf : Bytes
  off : Nat
deriving DecidableEq, Repr

/-- Function `bytes.NewBuffer(buf)`: a buffer whose contents are `buf`. -/
def NewBuffer (buf : Bytes) : Buffer := ⟨buf, 0⟩

/-- Method `(*Buffer).empty`: `len(b.buf) <= b.off`. -/
def Buffer.empty (b : Buffer) : Bool := decide (b.buf.length ≤ b.off)

/-- Method `(*Buffer).Reset`. -/
def Buffer.Reset (_b : Buffer) : Buffer := ⟨[], 0⟩

/-- Method `(*Buffer).Write(p)`: appends `p`, returns `len(p)` and a nil error. -/
def Buffer.Write (b : Buffer) (p : Bytes) : (Int × Option GoError) × Buffer :=
  (((p.length : Int), none), { b with buf := b.buf ++ p })

/-- Method `(*Buffer).Read(p)`: the first component of the result is `p` after the
call. An empty buffer is reset and gives `io.EOF` unless `len(p) == 0`;
otherwise `n = copy(p, b.buf[b.off:])` bytes are copied and `off` advances. -/
def Buffer.Read (b : Buffer) (p : Bytes) : (Bytes × Int × Option GoError) × Buffer :=
  if b.empty then
    if p.length = 0 then ((p, 0, none), b.Reset)
    else ((p, 0, some GoError.EOF), b.Reset)
  else
    let src := b.buf.drop b.off
    let n := min p.length src.length
    ((src.take n ++ p.drop n, (n : Int), none), { b with off := b.off + n })

/-- The slice `make([]byte, n)` for `0 <= n`: `n` zero bytes. -/
def makeBytes (n : Int) : Bytes := List.replicate n.toNat (0 : Byte)

/-! ## The delegate -/

/-- The methods of the embedded `http.ResponseWriter` that the wrapper calls,
over the delegate's state `σ`. `Flush`, `Hijack` and `CloseNotify` are present
exactly when the delegate's dynamic type implements `http.Flusher`,
`http.Hijacker` and `http.CloseNotifier`. -/
structure HttpResponseWriter (σ : Type) where
  Write : σ → Bytes → (Int × Option GoError) × σ
  WriteHeader : σ → Int → σ
  Flush : Option (σ → σ)
  Hijack : Option (σ → (Option Conn × Option BufioReadWriter × Option GoError) × σ)
  CloseNotify : Option (σ → Chan × σ)

/-! ## `appResponseWriter` -/

/-- The struct `appResponseWriter`: the embedded delegate (its state), the
recorded status code, the byte counter and the retained body, an
`io.ReadWriter` interface value (`none` is the nil interface). -/
structure appResponseWriter (σ : Type) where
  ResponseWriter : σ
  statusCode : Int
  size : Int
  body : Option Buffer
deriving DecidableEq, Repr

/-- A fresh instance, the composite literal `&appResponseWriter{ResponseWriter: rw}`:
the source file has no constructor, and the fields other than the delegate have
their Go zero values (status 0, size 0, nil body). -/
def fresh {σ : Type} (rw : σ) : appResponseWriter σ :=
  { ResponseWriter := rw, statusCode := 0, size := 0, body := none }

variable {σ : Type}

/-- Method `func (w *appResponseWriter) Write(data []byte) (n int, err error)` -/
def appResponseWriter.Write (D : HttpResponseWriter σ) (w : appResponseWriter σ)
    (data : Bytes) : (Int × Option GoError) × appResponseWriter σ :=
  let w1 := if w.statusCode = 0 then { w with statusCode := StatusOK } else w
  let (_err, w2) : Option GoError × appResponseWriter σ :=
    match w1.body with
    | none => (none, { w1 with body := some (NewBuffer data) })
    | some b =>
      let r := b.Write data
      (r.1.2, { w1 with body := some r.2 })
  let r := D.Write w2.ResponseWriter data
  let size := r.1.1
  let err := r.1.2
  ((size, err), { w2 with ResponseWriter := r.2, size := w2.size + size })

/-- Method `func (w *appResponseWriter) WriteHeader(statusCode int)` -/
def appResponseWriter.WriteHeader (D : HttpResponseWriter σ) (w : appResponseWriter σ)
    (statusCode : Int) : appResponseWriter σ :=
  let w1 := { w with statusCode := statusCode }
  { w1 with ResponseWriter := D.WriteHeader w1.ResponseWriter statusCode }

/-- Method `func (w *appResponseWriter) StatusCode() int` -/
def appResponseWriter.StatusCode (w : appResponseWriter σ) : Int := w.statusCode

/-- Method `func (w *appResponseWriter) Written() bool` -/
def appResponseWriter.Written (w : appResponseWriter σ) : Bool := decide (w.statusCode ≠ 0)

/-- Method `func (w *appResponseWriter) Size() int` -/
def appResponseWriter.Size (w : appResponseWriter σ) : Int := w.size

/-- Method `func (w *appResponseWriter) Body() ([]byte, error)`; the returned slice is
`none` when it is nil. -/
def appResponseWriter.Body (w : appResponseWriter σ) :
    Outcome ((Option Bytes × Option GoError) × appResponseWriter σ) :=
  match w.body with
  | none => Outcome.ok ((none, some GoError.EOF), w)
  | some body =>
    if w.Size < 0 then Outcome.panic Panic.makesliceLenOutOfRange
    else
      let b0 := makeBytes w.Size
      let r := body.Read b0
      let b := r.1.1
      let err := r.1.2.2
      Outcome.ok ((some b, err), { w with body := some (NewBuffer b) })

/-- Method `func (w *appResponseWriter) Hijack() (net.Conn, *bufio.ReadWriter, error)` -/
def appResponseWriter.Hijack (D : HttpResponseWriter σ) (w : appResponseWriter σ) :
    (Option Conn × Option BufioReadWriter × Option GoError) × appResponseWriter σ :=
  match D.Hijack with
  | none => ((none, none, some (GoError.Errorf hijackMsg)), w)
  | some hijack =>
    let r := hijack w.ResponseWriter
    (r.1, { w with ResponseWriter := r.2 })

/-- Method `func (w *appResponseWriter) CloseNotify() <-chan bool` -/
def appResponseWriter.CloseNotify (D : HttpResponseWriter σ) (w : appResponseWriter σ) :
    Outcome (Chan × appResponseWriter σ) :=
  match D.CloseNotify with
  | none => Outcome.panic Panic.interfaceConversion
  | some closeNotify =>
    let r := closeNotify w.ResponseWriter
    Outcome.ok (r.1, { w with ResponseWriter := r.2 })

/-- Method `func (w *appResponseWriter) Flush()` -/
def appResponseWriter.Flush (D : HttpResponseWriter σ) (w : appResponseWriter σ) :
    appResponseWriter σ :=
  match D.Flush with
  | some flush => { w with ResponseWriter := flush w.ResponseWriter }
  | none => w

/-! ## Sequences of calls -/

/-- A call of one method of the wrapper. -/
inductive Call where
  | Write (data : Bytes)
  | WriteHeader (statusCode : Int)
  | StatusCode
  | Written
  | Size
  | Body
  | Hijack
  | CloseNotify
  | Flush
deriving DecidableEq, Repr

/-- What a call gave back to its caller. -/
inductive Ret where
  | Write (n : Int) (err : Option GoError)
  | WriteHeader
  | StatusCode (v : Int)
  | Written (v : Bool)
  | Size (v : Int)
  | Body (b : Option Bytes) (err : Option GoError)
  | Hijack (c : Option Conn) (rw : Option BufioReadWriter) (err : Option GoError)
  | CloseNotify (c : Chan)
  | Flush
  | panicked (p : Panic)
deriving DecidableEq, Repr

/-- One call on the wrapper: what it returns and the state afterwards. A panic
is raised before the method has assigned anything, so it leaves the state as
it was. -/
def step (D : HttpResponseWriter σ) (w : appResponseWriter σ) :
    Call → Ret × appResponseWriter σ
  | Call.Write data =>
    let r := w.Write D data
    (Ret.Write r.1.1 r.1.2, r.2)
  | Call.WriteHeader statusCode => (Ret.WriteHeader, w.WriteHeader D statusCode)
  | Call.StatusCode => (Ret.StatusCode w.StatusCode, w)
  | Call.Written => (Ret.Written w.Written, w)
  | Call.Size => (Ret.Size w.Size, w)
  | Call.Body =>
    match w.Body with
    | Outcome.ok r => (Ret.Body r.1.1 r.1.2, r.2)
    | Outcome.panic p => (Ret.panicked p, w)
  | Call.Hijack =>
    let r := w.Hijack D
    (Ret.Hijack r.1.1 r.1.2.1 r.1.2.2, r.2)
  | Call.CloseNotify =>
    match w.CloseNotify D with
    | Outcome.ok r => (Ret.CloseNotify r.1, r.2)
    | Outcome.panic p => (Ret.panicked p, w)
  | Call.Flush => (Ret.Flush, w.Flush D)

/-- A sequence of calls, one after the other: the results and the last state. -/
def run (D : HttpResponseWriter σ) (w : appResponseWriter σ) :
    List Call → List Ret × appResponseWriter σ
  | [] => ([], w)
  | c :: cs =>
    let r := step D w c
    let rest := run D r.2 cs
    (r.1 :: rest.1, rest.2)

/-- The `Write` calls the delegate receives during a run, each with the data it
was given and the `(count, error)` pair it reported. -/
def delegateWrites (D : HttpResponseWriter σ) (w : appResponseWriter σ) :
    List Call → List (Bytes × (Int × Option GoError))
  | [] => []
  | Call.Write data :: cs =>
    (data, (D.Write w.ResponseWriter data).1) ::
      delegateWrites D (step D w (Call.Write data)).2 cs
  | c :: cs => delegateWrites D (step D w c).2 cs

/-- The bytes passed to `Write` in a sequence of calls, in order. -/
def writtenData : List Call → Bytes
  | [] => []
  | Call.Write data :: cs => data ++ writtenData cs
  | _ :: cs => writtenData cs

/-- Whether a call is a `Write`. -/
def Call.isWrite : Call → Bool
  | Call.Write _ => true
  | _ => false

/-- The unread contents of the retained body (nothing for a nil body). -/
def appResponseWriter.retained (w : appResponseWriter σ) : Bytes :=
  match w.body with
  | none => []
  | some b => b.buf.drop b.off

/-- The slice and the error of a `Body()` result, without the state. -/
def bodyResult (o : Outcome ((Option Bytes × Option GoError) × appResponseWriter σ)) :
    Outcome (Option Bytes × Option GoError) :=
  match o with
  | Outcome.ok r => Outcome.ok r.1
  | Outcome.panic p => Outcome.panic p

/-- The contents of a returned slice (a nil slice has none). -/
def sliceContents (b : Option Bytes) : Bytes := b.getD []

/-! ## Predicates on runs and states -/

/-- The bytes `Body` hands out when the retained buffer holds `buf` and the
counter is `size`: the first `size` bytes of `buf`, filled up with zero bytes
when `buf` is shorter. -/
def bodyBytes (buf : Bytes) (size : Int) : Bytes :=
  buf.take size.toNat ++ List.replicate (size.toNat - buf.length) (0 : Byte)

/-- The delegate reports, for every `Write` of the run, a count between 0 and
the length of the data. -/
def countsInRange (D : HttpResponseWriter σ) (w : appResponseWriter σ)
    (calls : List Call) : Prop :=
  ∀ p ∈ delegateWrites D w calls, 0 ≤ p.2.1 ∧ p.2.1 ≤ (p.1.length : Int)

/-- The sum of the counts the delegate reported for the `Write` calls of a run. -/
def reportedTotal (D : HttpResponseWriter σ) (w : appResponseWriter σ)
    (calls : List Call) : Int :=
  ((delegateWrites D w calls).map (fun p => p.2.1)).sum

/-- With a nil body the counter is 0; a retained buffer is unread from its
start and holds at least `size` bytes, and `size` is not negative. -/
def Inv (w : appResponseWriter σ) : Prop :=
  (w.body = none → w.size = 0) ∧
    ∀ b, w.body = some b → b.off = 0 ∧ 0 ≤ w.size ∧ w.size ≤ (b.buf.length : Int)

/-! ## A concrete delegate -/

/-- A delegate that answers its `Write` calls from a script, one entry per
call, and accepts a write in full once the script is used up. It implements
none of the optional interfaces. -/
def scripted : HttpResponseWriter (List (Int × Option GoError)) where
  Write := fun s data =>
    match s with
    | [] => (((data.length : Int), none), [])
    | r :: rs => (r, rs)
  WriteHeader := fun s _ => s
  Flush := none
  Hijack := none
  CloseNotify := none

/-- A delegate that accepts every write in full and implements all the
optional interfaces: `Hijack` hands out connection 1 and reader-writer 2,
`CloseNotify` hands out channel 3. -/
def capable : HttpResponseWriter Unit where
  Write := fun s data => (((data.length : Int), none), s)
  WriteHeader := fun s _ => s
  Flush := some (fun s => s)
  Hijack := some (fun s => ((some 1, some 2, none), s))
  CloseNotify := some (fun s => (3, s))

/-! ## Observing the calls the delegate receives -/

/-- A call received by the delegate. -/
inductive DelegateCall where
  | Write (data : Bytes)
  | WriteHeader (statusCode : Int)
  | Flush
  | Hijack
  | CloseNotify
deriving DecidableEq, Repr

/-- The delegate `D` with a log: every method does what `D` does and appends the
call it received to the log kept next to the state of `D`. The optional
interfaces are implemented exactly when `D` implements them. -/
def recording (D : HttpResponseWriter σ) : HttpResponseWriter (σ × List DelegateCall) where
  Write := fun s data =>
    let r := D.Write s.1 data
    (r.1, (r.2, s.2 ++ [DelegateCall.Write data]))
  WriteHeader := fun s statusCode =>
    (D.WriteHeader s.1 statusCode, s.2 ++ [DelegateCall.WriteHeader statusCode])
  Flush := D.Flush.map (fun flush s => (flush s.1, s.2 ++ [DelegateCall.Flush]))
  Hijack := D.Hijack.map (fun hijack s =>
    let r := hijack s.1
    (r.1, (r.2, s.2 ++ [DelegateCall.Hijack])))
  CloseNotify := D.CloseNotify.map (fun closeNotify s =>
    let r := closeNotify s.1
    (r.1, (r.2, s.2 ++ [DelegateCall.CloseNotify])))

/-! ## The same methods over shared memory

Above a slice is a value and an `int` is an integer. The definitions of this
section describe the methods once more with the memory behind the slices made
explicit and with the counter kept in a machine `int`, so that a caller who
keeps and changes a slice after handing it to `Write`, and a counter that
leaves the range of `int`, can be described. A slice is a view of an array of
the heap, as in Go. The delegate receives the contents of the data and does not
change the heap. -/

namespace Mem

/-- The byte arrays allocated so far; an array is known by its index. -/
abbrev Heap := List Bytes

/-- A `[]byte` value: the array it views, where the view starts in the array,
its length and its capacity. -/
structure Slice where
  arr : Nat
  start : Nat
  len : Nat
  cap : Nat
deriving DecidableEq, Repr

/-- The contents of a slice. -/
def Heap.read (h : Heap) (s : Slice) : Bytes :=
  ((h.getD s.arr []).drop s.start).take s.len

/-- The heap after the bytes `bs` are stored in array `a` from position `pos`. -/
def Heap.store (h : Heap) (a pos : Nat) (bs : Bytes) : Heap :=
  h.set a (((h.getD a []).take pos) ++ bs ++ (h.getD a []).drop (pos + bs.length))

/-- The statement `s[i] = v` of a caller that holds the slice `s`. -/
def Heap.assign (h : Heap) (s : Slice) (i : Nat) (v : Byte) : Heap :=
  if i < s.len then h.store s.arr (s.start + i) [v] else h

/-- The slice `make([]byte, n)`: a new array of `n` zero bytes. -/
def Heap.make (h : Heap) (n : Nat) : Heap × Slice :=
  (h ++ [List.replicate n (0 : Byte)], ⟨h.length, 0, n, n⟩)

/-- The fields of `bytes.Buffer`: the slice `buf` and the read offset `off`. -/
structure Buffer where
  buf : Slice
  off : Nat
deriving DecidableEq, Repr

/-- Function `bytes.NewBuffer(buf)`: the buffer uses `buf` itself, it makes no
copy. -/
def NewBuffer (buf : Slice) : Buffer := ⟨buf, 0⟩

/-- Method `(*Buffer).Write(p)`. When the capacity of `buf` has room for `p`,
`buf` is resliced and `p` is copied behind its end, in the same array
(`tryGrowByReslice`). Otherwise `grow` resets an empty buffer, slides the unread
bytes to the front of the array when that frees enough room, or moves them to a
new array; the new array is private to the buffer, and its capacity is taken
as what `grow` asks for. -/
def Buffer.Write (h : Heap) (b : Buffer) (p : Slice) : Heap × Buffer :=
  let data := h.read p
  let n := p.len
  if n ≤ b.buf.cap - b.buf.len then
    let l := b.buf.len
    (h.store b.buf.arr (b.buf.start + l) data, { b with buf := { b.buf with len := l + n } })
  else
    let m := b.buf.len - b.off
    let b1 : Buffer := if m = 0 ∧ b.off ≠ 0 then ⟨{ b.buf with len := 0 }, 0⟩ else b
    if n ≤ b1.buf.cap - b1.buf.len then
      let l := b1.buf.len
      (h.store b1.buf.arr (b1.buf.start + l) data,
        { b1 with buf := { b1.buf with len := l + n } })
    else
      let c := b1.buf.cap
      let unread := (h.read b1.buf).drop b1.off
      if n + m ≤ c / 2 then
        let h1 := h.store b1.buf.arr b1.buf.start unread
        (h1.store b1.buf.arr (b1.buf.start + m) (h1.read p),
          ⟨{ b1.buf with len := m + n }, 0⟩)
      else
        let c2 := max (m + b1.off + n) (2 * (c - b1.off))
        (h ++ [unread ++ data ++ List.replicate (c2 - (m + n)) (0 : Byte)],
          ⟨⟨h.length, 0, m + n, c2⟩, 0⟩)

/-- Method `(*Buffer).Read(p)`: copies unread bytes into the memory of `p`. -/
def Buffer.Read (h : Heap) (b : Buffer) (p : Slice) :
    (Int × Option GoError) × Heap × Buffer :=
  if b.buf.len ≤ b.off then
    if p.len = 0 then ((0, none), h, ⟨{ b.buf with len := 0 }, 0⟩)
    else ((0, some GoError.EOF), h, ⟨{ b.buf with len := 0 }, 0⟩)
  else
    let src := (h.read b.buf).drop b.off
    let n := min p.len src.length
    (((n : Int), none), h.store p.arr p.start (src.take n), { b with off := b.off + n })

/-- Go `int` on a 64-bit platform holds the integers from `-2^63` to `2^63 - 1`;
`wrapInt x` is the value such a variable keeps when the exact result is `x`
(two's complement wrap-around). -/
def wrapInt (x : Int) : Int :=
  (x + 9223372036854775808) % 18446744073709551616 - 9223372036854775808

/-- The struct `appResponseWriter` with a body that lives in the heap. -/
structure appResponseWriter (σ : Type) where
  ResponseWriter : σ
  statusCode : Int
  size : Int
  body : Option Buffer
deriving DecidableEq, Repr

/-- A fresh instance: the zero value around a delegate. -/
def fresh {σ : Type} (rw : σ) : appResponseWriter σ :=
  { ResponseWriter := rw, statusCode := 0, size := 0, body := none }

/-- Method `func (w *appResponseWriter) Write(data []byte) (n int, err error)` -/
def appResponseWriter.Write (D : HttpResponseWriter σ) (h : Heap) (w : appResponseWriter σ)
    (data : Slice) : (Int × Option GoError) × Heap × appResponseWriter σ :=
  let w1 := if w.statusCode = 0 then { w with statusCode := StatusOK } else w
  let (h2, w2) : Heap × appResponseWriter σ :=
    match w1.body with
    | none => (h, { w1 with body := some (NewBuffer data) })
    | some b =>
      let r := b.Write h data
      (r.1, { w1 with body := some r.2 })
  let r := D.Write w2.ResponseWriter (h2.read data)
  ((r.1.1, r.1.2), h2,
    { w2 with ResponseWriter := r.2, size := wrapInt (w2.size + r.1.1) })

/-- Method `func (w *appResponseWriter) WriteHeader(statusCode int)` -/
def appResponseWriter.WriteHeader (D : HttpResponseWriter σ) (w : appResponseWriter σ)
    (statusCode : Int) : appResponseWriter σ :=
  let w1 := { w with statusCode := statusCode }
  { w1 with ResponseWriter := D.WriteHeader w1.ResponseWriter statusCode }

/-- Method `func (w *appResponseWriter) StatusCode() int` -/
def appResponseWriter.StatusCode (w : appResponseWriter σ) : Int := w.statusCode

/-- Method `func (w *appResponseWriter) Written() bool` -/
def appResponseWriter.Written (w : appResponseWriter σ) : Bool := decide (w.statusCode ≠ 0)

/-- Method `func (w *appResponseWriter) Size() int` -/
def appResponseWriter.Size (w : appResponseWriter σ) : Int := w.size

/-- Method `func (w *appResponseWriter) Body() ([]byte, error)`; the returned slice is
`none` when it is nil. -/
def appResponseWriter.Body (h : Heap) (w : appResponseWriter σ) :
    Outcome ((Option Slice × Option GoError) × Heap × appResponseWriter σ) :=
  match w.body with
  | none => Outcome.ok ((none, some GoError.EOF), h, w)
  | some body =>
    if w.size < 0 then Outcome.panic Panic.makesliceLenOutOfRange
    else
      let m := h.make w.size.toNat
      let b := m.2
      let r := body.Read m.1 b
      Outcome.ok ((some b, r.1.2), r.2.1, { w with body := some (NewBuffer b) })

/-- Method `func (w *appResponseWriter) Hijack() (net.Conn, *bufio.ReadWriter, error)` -/
def appResponseWriter.Hijack (D : HttpResponseWriter σ) (w : appResponseWriter σ) :
    (Option Conn × Option BufioReadWriter × Option GoError) × appResponseWriter σ :=
  match D.Hijack with
  | none => ((none, none, some (GoError.Errorf hijackMsg)), w)
  | some hijack =>
    let r := hijack w.ResponseWriter
    (r.1, { w with ResponseWriter := r.2 })

/-- Method `func (w *appResponseWriter) CloseNotify() <-chan bool` -/
def appResponseWriter.CloseNotify (D : HttpResponseWriter σ) (w : appResponseWriter σ) :
    Outcome (Chan × appResponseWriter σ) :=
  match D.CloseNotify with
  | none => Outcome.panic Panic.interfaceConversion
  | some closeNotify =>
    let r := closeNotify w.ResponseWriter
    Outcome.ok (r.1, { w with ResponseWriter := r.2 })

/-- Method `func (w *appResponseWriter) Flush()` -/
def appResponseWriter.Flush (D : HttpResponseWriter σ) (w : appResponseWriter σ) :
    appResponseWriter σ :=
  match D.Flush with
  | some flush => { w with ResponseWriter := flush w.ResponseWriter }
  | none => w

/-- What happens during a request: a call of a method of the wrapper, or the
statement `s[i] = v` of the caller on a slice it holds. -/
inductive Event where
  | Write (data : Slice)
  | WriteHeader (statusCode : Int)
  | StatusCode
  | Written
  | Size
  | Body
  | Hijack
  | CloseNotify
  | Flush
  | Assign (s : Slice) (i : Nat) (v : Byte)
deriving DecidableEq, Repr

/-- One event: the heap and the state of the wrapper afterwards. A panic leaves
both as they were. -/
def step (D : HttpResponseWriter σ) (h : Heap) (w : appResponseWriter σ) :
    Event → Heap × appResponseWriter σ
  | Event.Write data => (w.Write D h data).2
  | Event.WriteHeader statusCode => (h, w.WriteHeader D statusCode)
  | Event.StatusCode => (h, w)
  | Event.Written => (h, w)
  | Event.Size => (h, w)
  | Event.Body =>
    match w.Body h with
    | Outcome.ok r => r.2
    | Outcome.panic _ => (h, w)
  | Event.Hijack => (h, (w.Hijack D).2)
  | Event.CloseNotify =>
    match w.CloseNotify D with
    | Outcome.ok r => (h, r.2)
    | Outcome.panic _ => (h, w)
  | Event.Flush => (h, w.Flush D)
  | Event.Assign s i v => (h.assign s i v, w)

/-- A sequence of events, one after the other. -/
def run (D : HttpResponseWriter σ) (h : Heap) (w : appResponseWriter σ) :
    List Event → Heap × appResponseWriter σ
  | [] => (h, w)
  | e :: es => run D (step D h w e).1 (step D h w e).2 es

/-- The bytes passed to `Write` during a run, in order: for each `Write(data)`
the contents of `data` when the call is made. -/
def writtenData (D : HttpResponseWriter σ) (h : Heap) (w : appResponseWriter σ) :
    List Event → Bytes
  | [] => []
  | Event.Write data :: es =>
    h.read data ++
      writtenData D (step D h w (Event.Write data)).1 (step D h w (Event.Write data)).2 es
  | e :: es => writtenData D (step D h w e).1 (step D h w e).2 es

/-- The counts the delegate reports for the `Write` calls of a run: the delegate
is called in the state it has then, with the data as it is after the body has
been stored. -/
def reportedCounts (D : HttpResponseWriter σ) (h : Heap) (w : appResponseWriter σ) :
    List Event → List Int
  | [] => []
  | Event.Write data :: es =>
    (D.Write w.ResponseWriter ((w.Write D h data).2.1.read data)).1.1 ::
      reportedCounts D (step D h w (Event.Write data)).1 (step D h w (Event.Write data)).2 es
  | e :: es => reportedCounts D (step D h w e).1 (step D h w e).2 es

/-- The slice `s` lies within an array of the heap. -/
def Heap.holds (h : Heap) (s : Slice) : Prop :=
  s.arr < h.length ∧ s.start + s.cap ≤ (h.getD s.arr []).length ∧ s.len ≤ s.cap

/-- The unread contents of the retained body (nothing for a nil body). -/
def appResponseWriter.retained (h : Heap) (w : appResponseWriter σ) : Bytes :=
  match w.body with
  | none => []
  | some b => (h.read b.buf).drop b.off

/-- The calls `Write(d)` for the slices `d` of a list, one after the other: the
heap and the state afterwards. -/
def writeAll (D : HttpResponseWriter σ) (h : Heap) (w : appResponseWriter σ) :
    List Slice → Heap × appResponseWriter σ
  | [] => (h, w)
  | d :: ds =>
    let r := w.Write D h d
    writeAll D r.2.1 r.2.2 ds

/-- The contents of the slice a `Body()` call returned, read in the heap the
call left; `none` when the call panicked or returned a nil slice. -/
def bodyContents (o : Outcome ((Option Slice × Option GoError) × Heap × appResponseWriter σ)) :
    Option Bytes :=
  match o with
  | Outcome.ok r => r.1.1.map (fun b => r.2.1.read b)
  | Outcome.panic _ => none

end Mem

/-! ## Basic facts about `Write` -/

theorem Write_result (D : HttpResponseWriter σ) (w : appResponseWriter σ) (data : Bytes) :
    (w.Write D data).1 = (D.Write w.ResponseWriter data).1 := by
  unfold appResponseWriter.Write
  cases hb : w.body <;> by_cases hs : w.statusCode = 0 <;> simp [hb, hs]

theorem Write_delegate (D : HttpResponseWriter σ) (w : appResponseWriter σ) (data : Bytes) :
    (w.Write D data).2.ResponseWriter = (D.Write w.ResponseWriter data).2 := by
  unfold appResponseWriter.Write
  cases hb : w.body <;> by_cases hs : w.statusCode = 0 <;> simp [hb, hs]

theorem Write_size (D : HttpResponseWriter σ) (w : appResponseWriter σ) (data : Bytes) :
    (w.Write D data).2.size = w.size + (D.Write w.ResponseWriter data).1.1 := by
  unfold appResponseWriter.Write
  cases hb : w.body <;> by_cases hs : w.statusCode = 0 <;> simp [hb, hs]

theorem Write_statusCode (D : HttpResponseWriter σ) (w : appResponseWriter σ) (data : Bytes) :
    (w.Write D data).2.statusCode = if w.statusCode = 0 then StatusOK else w.statusCode := by
  unfold appResponseWriter.Write
  cases hb : w.body <;> by_cases hs : w.statusCode = 0 <;> simp [hb, hs]

theorem Write_body (D : HttpResponseWriter σ) (w : appResponseWriter σ) (data : Bytes) :
    (w.Write D data).2.body =
      some (match w.body with
        | none => NewBuffer data
        | some b => (b.Write data).2) := by
  unfold appResponseWriter.Write
  cases hb : w.body <;> by_cases hs : w.statusCode = 0 <;> simp [hb, hs]

/-! ## What `Body` computes -/

theorem Body_nil (w : appResponseWriter σ) (h : w.body = none) :
    w.Body = Outcome.ok ((none, some GoError.EOF), w) := by
  unfold appResponseWriter.Body
  simp [h]

theorem Body_some (w : appResponseWriter σ) (buf : Bytes)
    (h : w.body = some ⟨buf, 0⟩) (hs : 0 ≤ w.size) :
    w.Body = Outcome.ok
      ((some (bodyBytes buf w.size),
        if buf = [] ∧ 0 < w.size then some GoError.EOF else none),
       { w with body := some (NewBuffer (bodyBytes buf w.size)) }) := by
  have hn : ¬ w.size < 0 := not_lt.mpr hs
  unfold appResponseWriter.Body
  simp only [h, appResponseWriter.Size, hn, if_false]
  unfold Buffer.Read Buffer.empty makeBytes bodyBytes
  by_cases hb : buf = []
  · subst hb
    by_cases h0 : w.size.toNat = 0
    · have : ¬ 0 < w.size := by omega
      simp [h0, this, Buffer.Reset]
    · have : 0 < w.size := by omega
      simp [h0, this, Buffer.Reset]
  · have hlen : ¬ buf.length ≤ 0 := by
      intro hle
      exact hb (List.length_eq_zero.mp (Nat.le_zero.mp hle))
    have key : List.take (min w.size.toNat buf.length) buf ++
          List.replicate (w.size.toNat - min w.size.toNat buf.length) (0 : Byte) =
        List.take w.size.toNat buf ++ List.replicate (w.size.toNat - buf.length) (0 : Byte) := by
      rcases le_total w.size.toNat buf.length with hle | hle
      · rw [min_eq_left hle]
        have h1 : w.size.toNat - w.size.toNat = 0 := Nat.sub_self _
        have h2 : w.size.toNat - buf.length = 0 := Nat.sub_eq_zero_of_le hle
        rw [h1, h2]
      · rw [min_eq_right hle, List.take_of_length_le hle, List.take_of_length_le le_rfl]
    simp [hb, hlen, List.take_take, min_comm, key]

theorem Body_frame (w : appResponseWriter σ)
    (r : (Option Bytes × Option GoError) × appResponseWriter σ) (h : w.Body = Outcome.ok r) :
    r.2.size = w.size ∧ r.2.statusCode = w.statusCode ∧
      r.2.ResponseWriter = w.ResponseWriter := by
  unfold appResponseWriter.Body at h
  cases hb : w.body with
  | none =>
    simp only [hb] at h
    cases h
    exact ⟨rfl, rfl, rfl⟩
  | some b =>
    simp only [hb] at h
    by_cases hs : w.Size < 0
    · simp [hs] at h
    · simp only [hs, if_false] at h
      cases h
      exact ⟨rfl, rfl, rfl⟩

theorem bodyBytes_length (buf : Bytes) (size : Int) :
    (bodyBytes buf size).length = size.toNat := by
  unfold bodyBytes
  simp only [List.length_append, List.length_take, List.length_replicate]
  omega

theorem bodyBytes_full (buf : Bytes) (size : Int) (h : size = (buf.length : Int)) :
    bodyBytes buf size = buf := by
  unfold bodyBytes
  subst h
  simp

/-! ## One step -/

theorem step_size (D : HttpResponseWriter σ) (w : appResponseWriter σ) (c : Call) :
    (step D w c).2.size =
      match c with
      | Call.Write data => w.size + (D.Write w.ResponseWriter data).1.1
      | _ => w.size := by
  cases c with
  | Write data => simp [step, Write_size]
  | WriteHeader code => simp [step, appResponseWriter.WriteHeader]
  | StatusCode => simp [step]
  | Written => simp [step]
  | Size => simp [step]
  | Body =>
    simp only [step]
    cases hB : w.Body with
    | ok r => exact (Body_frame w r hB).1
    | panic p => rfl
  | Hijack =>
    simp only [step, appResponseWriter.Hijack]
    cases D.Hijack <;> rfl
  | CloseNotify =>
    simp only [step, appResponseWriter.CloseNotify]
    cases D.CloseNotify <;> rfl
  | Flush =>
    simp only [step, appResponseWriter.Flush]
    cases D.Flush <;> rfl

theorem step_statusCode (D : HttpResponseWriter σ) (w : appResponseWriter σ) (c : Call) :
    (step D w c).2.statusCode =
      match c with
      | Call.Write _ => if w.statusCode = 0 then StatusOK else w.statusCode
      | Call.WriteHeader code => code
      | _ => w.statusCode := by
  cases c with
  | Write data => simp [step, Write_statusCode]
  | WriteHeader code => simp [step, appResponseWriter.WriteHeader]
  | StatusCode => simp [step]
  | Written => simp [step]
  | Size => simp [step]
  | Body =>
    simp only [step]
    cases hB : w.Body with
    | ok r => exact (Body_frame w r hB).2.1
    | panic p => rfl
  | Hijack =>
    simp only [step, appResponseWriter.Hijack]
    cases D.Hijack <;> rfl
  | CloseNotify =>
    simp only [step, appResponseWriter.CloseNotify]
    cases D.CloseNotify <;> rfl
  | Flush =>
    simp only [step, appResponseWriter.Flush]
    cases D.Flush <;> rfl

/-- A call other than `Write` and `Body` leaves the retained body alone. -/
theorem step_body_other (D : HttpResponseWriter σ) (w : appResponseWriter σ) (c : Call)
    (hw : c.isWrite = false) (hb : c ≠ Call.Body) : (step D w c).2.body = w.body := by
  cases c with
  | Write data => simp [Call.isWrite] at hw
  | WriteHeader code => simp [step, appResponseWriter.WriteHeader]
  | StatusCode => simp [step]
  | Written => simp [step]
  | Size => simp [step]
  | Body => exact absurd rfl hb
  | Hijack =>
    simp only [step, appResponseWriter.Hijack]
    cases D.Hijack <;> rfl
  | CloseNotify =>
    simp only [step, appResponseWriter.CloseNotify]
    cases D.CloseNotify <;> rfl
  | Flush =>
    simp only [step, appResponseWriter.Flush]
    cases D.Flush <;> rfl

/-! ## Runs -/

theorem run_nil (D : HttpResponseWriter σ) (w : appResponseWriter σ) :
    run D w [] = ([], w) := rfl

theorem run_cons_state (D : HttpResponseWriter σ) (w : appResponseWriter σ) (c : Call)
    (cs : List Call) : (run D w (c :: cs)).2 = (run D (step D w c).2 cs).2 := rfl

theorem run_size (D : HttpResponseWriter σ) (calls : List Call) :
    ∀ w : appResponseWriter σ,
      (run D w calls).2.size =
        w.size + ((delegateWrites D w calls).map (fun p => p.2.1)).sum := by
  induction calls with
  | nil => intro w; simp [run, delegateWrites]
  | cons c cs ih =>
    intro w
    rw [run_cons_state, ih, step_size]
    cases c <;> simp [delegateWrites, add_assoc]

/-! ## The state invariant under a delegate that reports counts within bounds -/

theorem Inv_fresh (rw : σ) : Inv (fresh rw) := by
  constructor
  · intro _; rfl
  · intro b hb; simp [fresh] at hb

theorem step_Inv (D : HttpResponseWriter σ) (w : appResponseWriter σ) (c : Call)
    (hw : Inv w)
    (hc : ∀ data, c = Call.Write data →
      0 ≤ (D.Write w.ResponseWriter data).1.1 ∧
        (D.Write w.ResponseWriter data).1.1 ≤ (data.length : Int)) :
    Inv (step D w c).2 := by
  by_cases hB : c = Call.Body
  · subst hB
    cases hb : w.body with
    | none =>
      simp only [step, Body_nil w hb]
      exact hw
    | some b =>
      obtain ⟨hoff, h0, hle⟩ := hw.2 b hb
      obtain ⟨buf, off⟩ := b
      simp only at hoff hle
      subst hoff
      simp only [step, Body_some w buf hb h0]
      constructor
      · intro h; simp at h
      · intro b' hb'
        simp only [Option.some.injEq] at hb'
        subst hb'
        refine ⟨rfl, h0, ?_⟩
        simp only [NewBuffer, bodyBytes_length]
        omega
  · cases hwr : c.isWrite with
    | false =>
      have h1 := step_body_other D w c hwr hB
      have h2 := step_size D w c
      have h3 : (step D w c).2.size = w.size := by
        rw [h2]; cases c <;> simp_all [Call.isWrite]
      unfold Inv
      rw [h1, h3]
      exact hw
    | true =>
      cases c with
      | Write data =>
        obtain ⟨hn0, hn1⟩ := hc data rfl
        constructor
        · intro h; simp [step, Write_body] at h
        · intro b' hb'
          simp only [step, Write_body, Option.some.injEq] at hb'
          simp only [step, Write_size]
          cases hb : w.body with
          | none =>
            rw [hb] at hb'
            subst hb'
            have := hw.1 hb
            refine ⟨rfl, ?_, ?_⟩
            · omega
            · show w.size + _ ≤ ((data.length : Nat) : Int)
              omega
          | some b =>
            rw [hb] at hb'
            subst hb'
            obtain ⟨hoff, h0, hle⟩ := hw.2 b hb
            simp only [Buffer.Write, List.length_append, Nat.cast_add]
            refine ⟨hoff, by omega, by omega⟩
      | _ => simp [Call.isWrite] at hwr

theorem run_Inv (D : HttpResponseWriter σ) (calls : List Call) :
    ∀ w : appResponseWriter σ, Inv w → countsInRange D w calls → Inv (run D w calls).2 := by
  induction calls with
  | nil => intro w hw _; exact hw
  | cons c cs ih =>
    intro w hw hc
    rw [run_cons_state]
    apply ih
    · apply step_Inv D w c hw
      intro data hd
      subst hd
      exact hc (data, (D.Write w.ResponseWriter data).1) (by simp [delegateWrites])
    · intro p hp
      apply hc
      cases c <;> simp_all [delegateWrites]

/-! ## When the retained body exists -/

theorem Body_isSome (w : appResponseWriter σ)
    (r : (Option Bytes × Option GoError) × appResponseWriter σ) (h : w.Body = Outcome.ok r) :
    r.2.body.isSome = w.body.isSome := by
  unfold appResponseWriter.Body at h
  cases hb : w.body with
  | none =>
    simp only [hb] at h
    cases h
    simp [hb]
  | some b =>
    simp only [hb] at h
    by_cases hs : w.Size < 0
    · simp [hs] at h
    · simp only [hs, if_false] at h
      cases h
      simp

theorem step_body_isSome (D : HttpResponseWriter σ) (w : appResponseWriter σ) (c : Call) :
    (step D w c).2.body.isSome = (w.body.isSome || c.isWrite) := by
  by_cases hB : c = Call.Body
  · subst hB
    simp only [step, Call.isWrite, Bool.or_false]
    cases hr : w.Body with
    | ok r => exact Body_isSome w r hr
    | panic p => rfl
  · cases hwr : c.isWrite with
    | false => rw [step_body_other D w c hwr hB]; simp
    | true =>
      cases c with
      | Write data => simp [step, Write_body]
      | _ => simp [Call.isWrite] at hwr

theorem run_body_isSome (D : HttpResponseWriter σ) (calls : List Call) :
    ∀ w : appResponseWriter σ,
      (run D w calls).2.body.isSome = (w.body.isSome || calls.any Call.isWrite) := by
  induction calls with
  | nil => intro w; simp [run]
  | cons c cs ih =>
    intro w
    rw [run_cons_state, ih, step_body_isSome]
    simp [Bool.or_assoc]

/-! ## Runs without a `Write` -/

theorem any_isWrite_iff (calls : List Call) :
    calls.any Call.isWrite = true ↔ ∃ data, Call.Write data ∈ calls := by
  rw [List.any_eq_true]
  constructor
  · rintro ⟨c, hc, hw⟩
    cases c with
    | Write data => exact ⟨data, hc⟩
    | _ => simp [Call.isWrite] at hw
  · rintro ⟨data, hd⟩
    exact ⟨Call.Write data, hd, rfl⟩

theorem delegateWrites_no_write (D : HttpResponseWriter σ) (calls : List Call) :
    ∀ w : appResponseWriter σ, calls.any Call.isWrite = false →
      delegateWrites D w calls = [] := by
  induction calls with
  | nil => intro w _; rfl
  | cons c cs ih =>
    intro w h
    simp only [List.any_cons, Bool.or_eq_false_iff] at h
    cases c with
    | Write data => simp [Call.isWrite] at h
    | _ => simpa [delegateWrites] using ih _ h.2

theorem run_fresh_size (D : HttpResponseWriter σ) (rw : σ) (calls : List Call) :
    (run D (fresh rw) calls).2.size = reportedTotal D (fresh rw) calls := by
  rw [run_size]
  simp [fresh, reportedTotal]

/-! ## The claims -/

/-- C2, as stated, fails: the delegate reports a short write, 1 byte of the
2 bytes `hi` and an error, and `Body()` returns only the first byte. -/
theorem body_after_short_write_counterexample :
    bodyResult (run scripted (fresh [(1, some (GoError.delegate 7))])
        [Call.Write [104, 105]]).2.Body =
        Outcome.ok (some [104], none) ∧
      sliceContents (some [104]) ≠ writtenData [Call.Write [104, 105]] := by
  decide

/-- C3: `Write(data)` returns exactly the `(count, error)` pair that the
delegate's `Write(data)` returned, in every state and for every data. -/
theorem Write_returns_delegate_result (D : HttpResponseWriter σ) (w : appResponseWriter σ)
    (data : Bytes) :
    (w.Write D data).1 = (D.Write w.ResponseWriter data).1 :=
  Write_result D w data

/-- C5: `StatusCode()` is 0 on a fresh instance; a `Write` made while the
status is 0 sets it to 200, whatever the delegate returns, and a `Write` made
while the status is not 0 leaves it as it was. -/
theorem StatusCode_after_Write (D : HttpResponseWriter σ) (rw : σ)
    (w : appResponseWriter σ) (data : Bytes) :
    (fresh rw).StatusCode = 0 ∧
      (w.Write D data).2.StatusCode = if w.StatusCode = 0 then 200 else w.StatusCode := by
  refine ⟨rfl, ?_⟩
  simp only [appResponseWriter.StatusCode, Write_statusCode, StatusOK]

/-- C6: for every integer `code` and every prior state, `StatusCode()` is `code`
right after `WriteHeader(code)`. -/
theorem StatusCode_after_WriteHeader (D : HttpResponseWriter σ) (w : appResponseWriter σ)
    (code : Int) :
    (w.WriteHeader D code).StatusCode = code := rfl

/-- C7, as stated, fails: after `WriteHeader(200)` the status is 200, and
`WriteHeader(0)` takes it back to 0. -/
theorem status_back_to_zero_counterexample :
    (run scripted (fresh []) [Call.WriteHeader 200]).2.StatusCode ≠ 0 ∧
      (step scripted (run scripted (fresh []) [Call.WriteHeader 200]).2
        (Call.WriteHeader 0)).2.StatusCode = 0 := by
  decide

/-- C7, amended: a call other than `WriteHeader(0)` never takes a state with a
nonzero status to a state whose status is 0. -/
theorem status_stays_nonzero (D : HttpResponseWriter σ) (w : appResponseWriter σ)
    (c : Call) (hw : w.StatusCode ≠ 0) (hc : c ≠ Call.WriteHeader 0) :
    (step D w c).2.StatusCode ≠ 0 := by
  simp only [appResponseWriter.StatusCode] at hw ⊢
  rw [step_statusCode]
  cases c with
  | Write data => simp [hw, StatusOK]
  | WriteHeader code =>
    intro h
    simp only at h
    exact hc (by rw [h])
  | _ => exact hw

/-- An instance of amended C7: `Write` in a state whose status is 404. -/
theorem status_stays_nonzero_witness :
    (step scripted ((fresh []).WriteHeader scripted 404) (Call.Write [1])).2.StatusCode ≠ 0 :=
  status_stays_nonzero scripted ((fresh []).WriteHeader scripted 404) (Call.Write [1])
    (by decide) (by decide)

/-- C8, as stated, fails: `WriteHeader(201)` makes the status 201, and a later
`WriteHeader(404)` replaces it by 404. -/
theorem first_status_not_kept_counterexample :
    (run scripted (fresh []) [Call.WriteHeader 201]).2.StatusCode = 201 ∧
      (run scripted (fresh []) [Call.WriteHeader 201, Call.WriteHeader 404]).2.StatusCode
        = 404 := by
  decide

/-- C8, amended: once `StatusCode()` is nonzero, a later `Write` leaves it as it
is, and a later `WriteHeader(code)` sets it to `code`. -/
theorem status_after_later_calls (D : HttpResponseWriter σ) (w : appResponseWriter σ)
    (hw : w.StatusCode ≠ 0) :
    (∀ data, (w.Write D data).2.StatusCode = w.StatusCode) ∧
      ∀ code, (w.WriteHeader D code).StatusCode = code := by
  refine ⟨fun data => ?_, fun code => rfl⟩
  simp only [appResponseWriter.StatusCode] at hw ⊢
  rw [Write_statusCode, if_neg hw]

/-- An instance of amended C8, in the state after `WriteHeader(201)`. -/
theorem status_after_later_calls_witness :
    (((fresh []).WriteHeader scripted 201).Write scripted [111, 107]).2.StatusCode = 201 ∧
      (((fresh []).WriteHeader scripted 201).WriteHeader scripted 500).StatusCode = 500 :=
  ⟨(status_after_later_calls scripted ((fresh []).WriteHeader scripted 201)
      (by decide)).1 [111, 107],
   (status_after_later_calls scripted ((fresh []).WriteHeader scripted 201)
      (by decide)).2 500⟩

/-- C9: in a state reached from a fresh instance without a `Write` call,
`Body()` returns a nil slice and `io.EOF` and leaves the state as it was, and
`Size()` is 0; on the fresh instance itself `Written()` is false as well. -/
theorem Body_before_any_Write (D : HttpResponseWriter σ) (rw : σ) (calls : List Call)
    (h : ∀ data, Call.Write data ∉ calls) :
    (run D (fresh rw) calls).2.Body =
        Outcome.ok ((none, some GoError.EOF), (run D (fresh rw) calls).2) ∧
      (run D (fresh rw) calls).2.Size = 0 ∧
      (fresh rw).Body = Outcome.ok ((none, some GoError.EOF), fresh rw) ∧
      (fresh rw).Size = 0 ∧ (fresh rw).Written = false := by
  have hany : calls.any Call.isWrite = false := by
    cases hb : calls.any Call.isWrite with
    | false => rfl
    | true =>
      obtain ⟨data, hd⟩ := (any_isWrite_iff calls).mp hb
      exact absurd hd (h data)
  have hsome := run_body_isSome D calls (fresh rw)
  rw [hany] at hsome
  have hnone : (run D (fresh rw) calls).2.body = none := by
    cases hb : (run D (fresh rw) calls).2.body with
    | none => rfl
    | some b => rw [hb] at hsome; simp [fresh] at hsome
  refine ⟨Body_nil _ hnone, ?_, Body_nil _ rfl, rfl, ?_⟩
  · rw [appResponseWriter.Size, run_fresh_size, reportedTotal,
      delegateWrites_no_write D calls _ hany]
    rfl
  · simp [appResponseWriter.Written, fresh]

/-- An instance of C9: `WriteHeader(404)`, `Flush()` and `Body()` came before. -/
theorem Body_before_any_Write_witness :
    (run scripted (fresh []) [Call.WriteHeader 404, Call.Flush, Call.Body]).2.Body =
        Outcome.ok ((none, some GoError.EOF),
          (run scripted (fresh []) [Call.WriteHeader 404, Call.Flush, Call.Body]).2) ∧
      (run scripted (fresh []) [Call.WriteHeader 404, Call.Flush, Call.Body]).2.Size = 0 ∧
      (fresh ([] : List (Int × Option GoError))).Body =
        Outcome.ok ((none, some GoError.EOF), fresh []) ∧
      (fresh ([] : List (Int × Option GoError))).Size = 0 ∧
      (fresh ([] : List (Int × Option GoError))).Written = false :=
  Body_before_any_Write scripted [] [Call.WriteHeader 404, Call.Flush, Call.Body]
    (fun data hd => by simp at hd)

/-- C10: when the delegate reports for every write a count between 0 and the
length of the data, `Body()` at the end of a run from a fresh instance returns a
non-nil slice and a nil error if the run contains a `Write`; it returns a nil
error exactly when the run contains a `Write`; and after the single call
`Write` of an empty slice it returns an empty slice and a nil error. -/
theorem Body_succeeds_iff_written (D : HttpResponseWriter σ) (rw : σ) (calls : List Call)
    (h : countsInRange D (fresh rw) calls) :
    ((∃ data, Call.Write data ∈ calls) →
        ∃ b, bodyResult (run D (fresh rw) calls).2.Body = Outcome.ok (some b, none)) ∧
      ((∃ b, bodyResult (run D (fresh rw) calls).2.Body = Outcome.ok (b, none)) ↔
        ∃ data, Call.Write data ∈ calls) ∧
      (calls = [Call.Write []] →
        bodyResult (run D (fresh rw) calls).2.Body = Outcome.ok (some [], none)) := by
  have hInv := run_Inv D calls (fresh rw) (Inv_fresh rw) h
  have hsome := run_body_isSome D calls (fresh rw)
  have key : (∃ data, Call.Write data ∈ calls) →
      ∃ buf, (run D (fresh rw) calls).2.body = some ⟨buf, 0⟩ ∧
        bodyResult (run D (fresh rw) calls).2.Body =
          Outcome.ok (some (bodyBytes buf (run D (fresh rw) calls).2.size), none) := by
    intro hw
    rw [(any_isWrite_iff calls).mpr hw] at hsome
    cases hb : (run D (fresh rw) calls).2.body with
    | none => rw [hb] at hsome; simp at hsome
    | some b =>
      obtain ⟨hoff, h0, hle⟩ := hInv.2 b hb
      obtain ⟨buf, off⟩ := b
      simp only at hoff hle
      subst hoff
      refine ⟨buf, rfl, ?_⟩
      rw [Body_some _ buf hb h0]
      have hE : ¬ (buf = [] ∧ 0 < (run D (fresh rw) calls).2.size) := by
        rintro ⟨h1, h2⟩
        rw [h1] at hle
        simp only [List.length_nil, Nat.cast_zero] at hle
        omega
      simp only [hE, if_false, bodyResult]
  refine ⟨fun hw => ?_, ⟨fun hb => ?_, fun hw => ?_⟩, fun hc => ?_⟩
  · obtain ⟨buf, _, hr⟩ := key hw
    exact ⟨_, hr⟩
  · by_contra hno
    have hany : calls.any Call.isWrite = false := by
      cases hb2 : calls.any Call.isWrite with
      | false => rfl
      | true => exact absurd ((any_isWrite_iff calls).mp hb2) hno
    rw [hany] at hsome
    have hnone : (run D (fresh rw) calls).2.body = none := by
      cases hb2 : (run D (fresh rw) calls).2.body with
      | none => rfl
      | some b => rw [hb2] at hsome; simp [fresh] at hsome
    obtain ⟨b, hb⟩ := hb
    rw [Body_nil _ hnone] at hb
    simp [bodyResult] at hb
  · obtain ⟨buf, _, hr⟩ := key hw
    exact ⟨_, hr⟩
  · obtain ⟨buf, hbuf, hr⟩ := key ⟨[], by rw [hc]; exact List.mem_singleton.mpr rfl⟩
    rw [hr]
    subst hc
    have hb0 : (run D (fresh rw) [Call.Write []]).2.body = some ⟨[], 0⟩ := by
      simp [run, step, Write_body, fresh, NewBuffer]
    rw [hb0] at hbuf
    simp only [Option.some.injEq, Buffer.mk.injEq, and_true] at hbuf
    subst hbuf
    obtain ⟨_, h0, hle⟩ := hInv.2 _ hb0
    have hz : (run D (fresh rw) [Call.Write []]).2.size = 0 := by
      simp only [List.length_nil, Nat.cast_zero] at hle
      omega
    rw [hz]
    rfl

/-- An instance of C10: a short write, `Body()`, a failed write and
`WriteHeader(500)`, and the single empty write. -/
theorem Body_succeeds_iff_written_witness :
    (∃ b, bodyResult (run scripted (fresh [(1, none), (0, some (GoError.delegate 3))])
        [Call.Write [104, 105], Call.Body, Call.Write [33], Call.WriteHeader 500]).2.Body =
          Outcome.ok (some b, none)) ∧
      bodyResult (run scripted (fresh [(0, none)]) [Call.Write []]).2.Body =
        Outcome.ok (some [], none) :=
  ⟨(Body_succeeds_iff_written scripted [(1, none), (0, some (GoError.delegate 3))]
      [Call.Write [104, 105], Call.Body, Call.Write [33], Call.WriteHeader 500]
      (by unfold countsInRange; decide)).1 ⟨[33], by decide⟩,
   (Body_succeeds_iff_written scripted [(0, none)] [Call.Write []]
      (by unfold countsInRange; decide)).2.2 rfl⟩

/-! ## Repeated `Body` calls -/

theorem step_Body_fixed (D : HttpResponseWriter σ) (w : appResponseWriter σ) (buf : Bytes)
    (hb : w.body = some ⟨buf, 0⟩) (hs : w.size = (buf.length : Int)) :
    step D w Call.Body = (Ret.Body (some buf) none, w) := by
  have h0 : 0 ≤ w.size := by rw [hs]; exact Int.ofNat_nonneg _
  have hE : ¬ (buf = [] ∧ 0 < w.size) := by
    rintro ⟨h1, h2⟩
    rw [hs, h1] at h2
    simp at h2
  simp only [step, Body_some w buf hb h0, bodyBytes_full buf w.size hs, hE, if_false]
  obtain ⟨rw, sc, sz, bd⟩ := w
  simp only at hb
  subst hb
  rfl

theorem run_Body_fixed (D : HttpResponseWriter σ) (w : appResponseWriter σ) (buf : Bytes)
    (hb : w.body = some ⟨buf, 0⟩) (hs : w.size = (buf.length : Int)) (k : Nat) :
    run D w (List.replicate k Call.Body) =
      (List.replicate k (Ret.Body (some buf) none), w) := by
  induction k with
  | zero => rfl
  | succ k ih =>
    simp only [List.replicate_succ, run, step_Body_fixed D w buf hb hs, ih]

theorem step_Body_of_Inv (D : HttpResponseWriter σ) (w : appResponseWriter σ) (buf : Bytes)
    (hb : w.body = some ⟨buf, 0⟩) (h0 : 0 ≤ w.size) (hle : w.size ≤ (buf.length : Int)) :
    step D w Call.Body =
      (Ret.Body (some (buf.take w.size.toNat)) none,
        { w with body := some ⟨buf.take w.size.toNat, 0⟩ }) := by
  have hE : ¬ (buf = [] ∧ 0 < w.size) := by
    rintro ⟨h1, h2⟩
    rw [h1] at hle
    simp only [List.length_nil, Nat.cast_zero] at hle
    omega
  have hbb : bodyBytes buf w.size = buf.take w.size.toNat := by
    unfold bodyBytes
    have : w.size.toNat - buf.length = 0 := by omega
    rw [this]
    simp
  simp only [step, Body_some w buf hb h0, hbb, hE, if_false, NewBuffer]

/-- C11: in a state reached from a fresh instance by a run with at least one
`Write`, the delegate reporting counts between 0 and the length of the data,
any number of consecutive `Body()` calls all return the same bytes with a nil
error, and the retained buffer afterwards holds exactly those bytes. -/
theorem Body_repeated_calls_agree (D : HttpResponseWriter σ) (rw : σ) (calls : List Call)
    (h : countsInRange D (fresh rw) calls) (hw : ∃ data, Call.Write data ∈ calls) :
    ∃ b, ∀ k,
      (run D (run D (fresh rw) calls).2 (List.replicate (k + 1) Call.Body)).1 =
          List.replicate (k + 1) (Ret.Body (some b) none) ∧
        (run D (run D (fresh rw) calls).2 (List.replicate (k + 1) Call.Body)).2.retained
          = b := by
  have hInv := run_Inv D calls (fresh rw) (Inv_fresh rw) h
  have hsome := run_body_isSome D calls (fresh rw)
  rw [(any_isWrite_iff calls).mpr hw] at hsome
  cases hb : (run D (fresh rw) calls).2.body with
  | none => rw [hb] at hsome; simp at hsome
  | some bf =>
    obtain ⟨hoff, h0, hle⟩ := hInv.2 bf hb
    obtain ⟨buf, off⟩ := bf
    simp only at hoff hle
    subst hoff
    refine ⟨buf.take (run D (fresh rw) calls).2.size.toNat, fun k => ?_⟩
    have hstep := step_Body_of_Inv D _ buf hb h0 hle
    have hlen : (run D (fresh rw) calls).2.size =
        ((buf.take (run D (fresh rw) calls).2.size.toNat).length : Int) := by
      rw [List.length_take]
      omega
    have hfix := run_Body_fixed D
      { (run D (fresh rw) calls).2 with
        body := some ⟨buf.take (run D (fresh rw) calls).2.size.toNat, 0⟩ }
      (buf.take (run D (fresh rw) calls).2.size.toNat) rfl hlen k
    simp only [List.replicate_succ, run, hstep, hfix, appResponseWriter.retained,
      List.drop_zero, and_self]

/-- An instance of C11: a short write and a full write, then three `Body()`
calls. -/
theorem Body_repeated_calls_agree_witness :
    ∃ b,
      (run scripted (run scripted (fresh [(1, some (GoError.delegate 7))])
          [Call.Write [104, 105], Call.Write [33]]).2 (List.replicate 3 Call.Body)).1 =
          List.replicate 3 (Ret.Body (some b) none) ∧
        (run scripted (run scripted (fresh [(1, some (GoError.delegate 7))])
          [Call.Write [104, 105], Call.Write [33]]).2
            (List.replicate 3 Call.Body)).2.retained = b :=
  Exists.imp (fun _ hb => hb 2)
    (Body_repeated_calls_agree scripted [(1, some (GoError.delegate 7))]
      [Call.Write [104, 105], Call.Write [33]] (by unfold countsInRange; decide)
      ⟨[33], by decide⟩)

/-- C12: in every state reached from a fresh instance by any sequence of calls,
`Written()` is true exactly when `StatusCode()` is not 0, and the two accessors
return those values and leave the state as it was. -/
theorem Written_iff_StatusCode_nonzero (D : HttpResponseWriter σ) (rw : σ)
    (calls : List Call) :
    ((run D (fresh rw) calls).2.Written = true ↔ (run D (fresh rw) calls).2.StatusCode ≠ 0) ∧
      step D (run D (fresh rw) calls).2 Call.Written =
        (Ret.Written (run D (fresh rw) calls).2.Written, (run D (fresh rw) calls).2) ∧
      step D (run D (fresh rw) calls).2 Call.StatusCode =
        (Ret.StatusCode (run D (fresh rw) calls).2.StatusCode, (run D (fresh rw) calls).2) := by
  refine ⟨?_, rfl, rfl⟩
  simp [appResponseWriter.Written, appResponseWriter.StatusCode]

/-! ## The optional interfaces and a failed first write -/

/-- C14: when the delegate is no `http.Hijacker`, `Hijack()` returns a nil
connection, a nil reader-writer and a non-nil error and leaves the whole state
as it was, the delegate and its log of received calls included; when the
delegate is one, `Hijack()` returns the triple the delegate's `Hijack()`
returned and leaves the status code, the counter and the body as they were. -/
theorem Hijack_fails_or_forwards (D : HttpResponseWriter σ) (w : appResponseWriter σ)
    (wr : appResponseWriter (σ × List DelegateCall)) :
    (D.Hijack = none →
        w.Hijack D = ((none, none, some (GoError.Errorf hijackMsg)), w) ∧
          (wr.Hijack (recording D)).2 = wr) ∧
      (∀ hijack, D.Hijack = some hijack →
        (w.Hijack D).1 = (hijack w.ResponseWriter).1 ∧
          (w.Hijack D).2.statusCode = w.statusCode ∧
          (w.Hijack D).2.size = w.size ∧ (w.Hijack D).2.body = w.body) := by
  constructor
  · intro h
    simp [appResponseWriter.Hijack, recording, h]
  · intro hijack h
    simp [appResponseWriter.Hijack, h]

/-- An instance of C14: the delegate `scripted` is no hijacker, the delegate
`capable` is one. -/
theorem Hijack_fails_or_forwards_witness :
    ((fresh ([] : List (Int × Option GoError))).Hijack scripted =
        ((none, none, some (GoError.Errorf hijackMsg)), fresh []) ∧
      ((fresh (([] : List (Int × Option GoError)), [DelegateCall.WriteHeader 404])).Hijack
        (recording scripted)).2 = fresh ([], [DelegateCall.WriteHeader 404])) ∧
      ((fresh ()).Hijack capable).1 = (some 1, some 2, none) :=
  ⟨(Hijack_fails_or_forwards scripted (fresh [])
      (fresh ([], [DelegateCall.WriteHeader 404]))).1 rfl,
   ((Hijack_fails_or_forwards capable (fresh ()) (fresh ((), []))).2
      (fun s => ((some 1, some 2, none), s)) rfl).1⟩

/-- C18: `Flush()` returns normally and leaves the status code, the counter and
the retained body as they were, so `Written()` and `Size()` are unchanged; the
delegate's flush is applied once when the delegate is an `http.Flusher`, and
the delegate is left alone otherwise: its log of received calls grows by one
`Flush` in the first case and not at all in the second. -/
theorem Flush_keeps_recorded_state (D : HttpResponseWriter σ) (w : appResponseWriter σ)
    (wr : appResponseWriter (σ × List DelegateCall)) :
    (step D w Call.Flush).1 = Ret.Flush ∧
      (w.Flush D).statusCode = w.statusCode ∧
      (w.Flush D).size = w.size ∧
      (w.Flush D).body = w.body ∧
      (w.Flush D).Written = w.Written ∧
      (w.Flush D).Size = w.Size ∧
      (w.Flush D).ResponseWriter =
        (match D.Flush with
          | some flush => flush w.ResponseWriter
          | none => w.ResponseWriter) ∧
      (wr.Flush (recording D)).ResponseWriter.2 =
        wr.ResponseWriter.2 ++ (if D.Flush.isSome then [DelegateCall.Flush] else []) := by
  refine ⟨rfl, ?_, ?_, ?_, ?_, ?_, ?_, ?_⟩ <;>
    cases h : D.Flush <;>
    simp [appResponseWriter.Flush, appResponseWriter.Written, appResponseWriter.Size,
      recording, h]

/-- C19: when the delegate answers the first `Write` on a fresh instance with
`(0, err)`, `err` non-nil, then afterwards `StatusCode()` is 200, `Written()` is
true, `Size()` is 0, and `Body()` returns an empty, non-nil slice and a nil
error. -/
theorem failed_first_write_is_recorded (D : HttpResponseWriter σ) (rw : σ) (data : Bytes)
    (e : GoError) (h : (D.Write rw data).1 = (0, some e)) :
    ((fresh rw).Write D data).2.StatusCode = 200 ∧
      ((fresh rw).Write D data).2.Written = true ∧
      ((fresh rw).Write D data).2.Size = 0 ∧
      bodyResult ((fresh rw).Write D data).2.Body = Outcome.ok (some [], none) := by
  have hsc : ((fresh rw).Write D data).2.statusCode = 200 := by
    rw [Write_statusCode]; rfl
  have hsz : ((fresh rw).Write D data).2.size = 0 := by
    rw [Write_size]
    have : (D.Write (fresh rw).ResponseWriter data).1.1 = 0 := by
      show (D.Write rw data).1.1 = 0
      rw [h]
    rw [this]; rfl
  have hb : ((fresh rw).Write D data).2.body = some ⟨data, 0⟩ := by
    rw [Write_body]; rfl
  refine ⟨hsc, ?_, hsz, ?_⟩
  · simp [appResponseWriter.Written, hsc]
  · rw [Body_some _ data hb (le_of_eq hsz.symm), hsz]
    simp [bodyResult, bodyBytes]

/-- An instance of C19: the delegate answers `(0, err)` to a write of `hi`. -/
theorem failed_first_write_is_recorded_witness :
    ((fresh [(0, some (GoError.delegate 7))]).Write scripted [104, 105]).2.StatusCode = 200 ∧
      ((fresh [(0, some (GoError.delegate 7))]).Write scripted [104, 105]).2.Written = true ∧
      ((fresh [(0, some (GoError.delegate 7))]).Write scripted [104, 105]).2.Size = 0 ∧
      bodyResult ((fresh [(0, some (GoError.delegate 7))]).Write scripted [104, 105]).2.Body
        = Outcome.ok (some [], none) :=
  failed_first_write_is_recorded scripted [(0, some (GoError.delegate 7))] [104, 105]
    (GoError.delegate 7) rfl

/-! ## The first write over shared memory -/

/-- C15: the first `Write` on a fresh instance retains the caller's slice
itself. (1) The caller writes `hi`, then sets `data[0] = 'H'`: `Body()` returns
`Hi`, not the `hi` that was written. (2) The caller writes the first 2 bytes of
its array `1 2 3 4` and then the 1-byte slice `9`: the second `Write` stores 9
in the caller's array, which becomes `1 2 9 4`. (3) Data written by a later
`Write` is copied: the caller writes `1 2` and `3 4` and then sets the first
byte of the second slice to 9, and `Body()` still returns `1 2 3 4`. -/
theorem first_write_retains_callers_slice :
    Mem.bodyContents
        (Mem.appResponseWriter.Body
          (Mem.Heap.assign
            (Mem.writeAll scripted [[104, 105]] (Mem.fresh []) [⟨0, 0, 2, 2⟩]).1
            ⟨0, 0, 2, 2⟩ 0 72)
          (Mem.writeAll scripted [[104, 105]] (Mem.fresh []) [⟨0, 0, 2, 2⟩]).2)
        = some [72, 105] ∧
      (Mem.writeAll scripted [[1, 2, 3, 4], [9]] (Mem.fresh [])
          [⟨0, 0, 2, 4⟩, ⟨1, 0, 1, 1⟩]).1.getD 0 [] = [1, 2, 9, 4] ∧
      Mem.bodyContents
        (Mem.appResponseWriter.Body
          (Mem.Heap.assign
            (Mem.writeAll scripted [[1, 2], [3, 4]] (Mem.fresh [])
              [⟨0, 0, 2, 2⟩, ⟨1, 0, 2, 2⟩]).1
            ⟨1, 0, 2, 2⟩ 0 9)
          (Mem.writeAll scripted [[1, 2], [3, 4]] (Mem.fresh [])
            [⟨0, 0, 2, 2⟩, ⟨1, 0, 2, 2⟩]).2)
        = some [1, 2, 3, 4] := by
  decide

/-! ## The counter as a machine integer -/

theorem wrapInt_of_range (x : Int) (h0 : -9223372036854775808 ≤ x)
    (h1 : x ≤ 9223372036854775807) : Mem.wrapInt x = x := by
  unfold Mem.wrapInt
  omega

theorem wrapInt_add (a b : Int) : Mem.wrapInt (Mem.wrapInt a + b) = Mem.wrapInt (a + b) := by
  unfold Mem.wrapInt
  omega

theorem wrapInt_idem (a : Int) : Mem.wrapInt (Mem.wrapInt a) = Mem.wrapInt a := by
  unfold Mem.wrapInt
  omega

theorem Mem_Write_heap (D : HttpResponseWriter σ) (h : Mem.Heap)
    (w : Mem.appResponseWriter σ) (data : Mem.Slice) :
    (w.Write D h data).2.1 =
      match w.body with
      | none => h
      | some b => (b.Write h data).1 := by
  unfold Mem.appResponseWriter.Write
  cases hb : w.body <;> by_cases hs : w.statusCode = 0 <;> simp [hb, hs]

theorem Mem_Write_body (D : HttpResponseWriter σ) (h : Mem.Heap)
    (w : Mem.appResponseWriter σ) (data : Mem.Slice) :
    (w.Write D h data).2.2.body =
      some (match w.body with
        | none => Mem.NewBuffer data
        | some b => (b.Write h data).2) := by
  unfold Mem.appResponseWriter.Write
  cases hb : w.body <;> by_cases hs : w.statusCode = 0 <;> simp [hb, hs]

theorem Mem_Write_size (D : HttpResponseWriter σ) (h : Mem.Heap)
    (w : Mem.appResponseWriter σ) (data : Mem.Slice) :
    (w.Write D h data).2.2.size =
      Mem.wrapInt (w.size +
        (D.Write w.ResponseWriter ((w.Write D h data).2.1.read data)).1.1) := by
  unfold Mem.appResponseWriter.Write
  cases hb : w.body <;> by_cases hs : w.statusCode = 0 <;> simp [hb, hs]

theorem Mem_Body_size (h : Mem.Heap) (w : Mem.appResponseWriter σ)
    (r : (Option Mem.Slice × Option GoError) × Mem.Heap × Mem.appResponseWriter σ)
    (hr : w.Body h = Outcome.ok r) : r.2.2.size = w.size := by
  unfold Mem.appResponseWriter.Body at hr
  cases hb : w.body with
  | none =>
    simp only [hb] at hr
    cases hr
    rfl
  | some b =>
    simp only [hb] at hr
    by_cases hs : w.size < 0
    · simp [hs] at hr
    · simp only [hs, if_false] at hr
      cases hr
      rfl

theorem Mem_step_size (D : HttpResponseWriter σ) (h : Mem.Heap)
    (w : Mem.appResponseWriter σ) (e : Mem.Event) :
    (Mem.step D h w e).2.size =
      match e with
      | Mem.Event.Write data =>
        Mem.wrapInt (w.size +
          (D.Write w.ResponseWriter ((w.Write D h data).2.1.read data)).1.1)
      | _ => w.size := by
  cases e with
  | Write data => simp [Mem.step, Mem_Write_size]
  | WriteHeader code => simp [Mem.step, Mem.appResponseWriter.WriteHeader]
  | StatusCode => simp [Mem.step]
  | Written => simp [Mem.step]
  | Size => simp [Mem.step]
  | Body =>
    simp only [Mem.step]
    cases hB : w.Body h with
    | ok r => exact Mem_Body_size h w r hB
    | panic p => rfl
  | Hijack =>
    simp only [Mem.step, Mem.appResponseWriter.Hijack]
    cases D.Hijack <;> rfl
  | CloseNotify =>
    simp only [Mem.step, Mem.appResponseWriter.CloseNotify]
    cases D.CloseNotify <;> rfl
  | Flush =>
    simp only [Mem.step, Mem.appResponseWriter.Flush]
    cases D.Flush <;> rfl
  | Assign s i v => simp [Mem.step]

theorem Mem_run_size (D : HttpResponseWriter σ) (es : List Mem.Event) :
    ∀ (h : Mem.Heap) (w : Mem.appResponseWriter σ), Mem.wrapInt w.size = w.size →
      (Mem.run D h w es).2.size =
        Mem.wrapInt (w.size + (Mem.reportedCounts D h w es).sum) := by
  induction es with
  | nil =>
    intro h w hw
    simp [Mem.run, Mem.reportedCounts, hw]
  | cons e es ih =>
    intro h w hw
    have hstep := Mem_step_size D h w e
    have hw2 : Mem.wrapInt (Mem.step D h w e).2.size = (Mem.step D h w e).2.size := by
      rw [hstep]
      cases e <;> simp only [wrapInt_idem, hw]
    have := ih (Mem.step D h w e).1 (Mem.step D h w e).2 hw2
    simp only [Mem.run]
    rw [this, hstep]
    cases e <;>
      simp only [Mem.reportedCounts, List.sum_cons, wrapInt_add, add_assoc]

/-- C4, as stated, fails: the delegate reports the largest `int`,
9223372036854775807, for each of two writes; the reported counts add up to
18446744073709551614, and `Size()` is -2. -/
theorem Size_wraps_around_counterexample :
    (Mem.run scripted [[104]]
        (Mem.fresh [(9223372036854775807, none), (9223372036854775807, none)])
        [Mem.Event.Write ⟨0, 0, 1, 1⟩, Mem.Event.Write ⟨0, 0, 1, 1⟩]).2.Size = -2 ∧
      (Mem.reportedCounts scripted [[104]]
        (Mem.fresh [(9223372036854775807, none), (9223372036854775807, none)])
        [Mem.Event.Write ⟨0, 0, 1, 1⟩, Mem.Event.Write ⟨0, 0, 1, 1⟩]).sum
          = 18446744073709551614 := by
  decide

/-- C4, amended: in every state reached from a fresh instance, whatever the
caller does to its slices in between, `Size()` is the sum of the counts the
delegate reported for the `Write` calls made so far, errors or not, as an `int`
holds it: the sum reduced into the range of `int`, which is the sum itself when
the sum lies in that range; and an event other than `Write` leaves `Size()` as
it was. -/
theorem Size_is_sum_in_int_arithmetic (D : HttpResponseWriter σ) (rw : σ) (h : Mem.Heap)
    (es : List Mem.Event) :
    (Mem.run D h (Mem.fresh rw) es).2.Size =
        Mem.wrapInt (Mem.reportedCounts D h (Mem.fresh rw) es).sum ∧
      (-9223372036854775808 ≤ (Mem.reportedCounts D h (Mem.fresh rw) es).sum ∧
          (Mem.reportedCounts D h (Mem.fresh rw) es).sum ≤ 9223372036854775807 →
        (Mem.run D h (Mem.fresh rw) es).2.Size =
          (Mem.reportedCounts D h (Mem.fresh rw) es).sum) ∧
      ∀ (h1 : Mem.Heap) (w : Mem.appResponseWriter σ) (e : Mem.Event),
        (Mem.step D h1 w e).2.Size =
          match e with
          | Mem.Event.Write data =>
            Mem.wrapInt (w.Size +
              (D.Write w.ResponseWriter ((w.Write D h1 data).2.1.read data)).1.1)
          | _ => w.Size := by
  have hsize : (Mem.run D h (Mem.fresh rw) es).2.size =
      Mem.wrapInt (Mem.reportedCounts D h (Mem.fresh rw) es).sum := by
    have h0 : Mem.wrapInt (Mem.fresh rw).size = (Mem.fresh rw).size :=
      wrapInt_of_range 0 (by decide) (by decide)
    rw [Mem_run_size D es h (Mem.fresh rw) h0]
    simp [Mem.fresh]
  refine ⟨hsize, fun hr => ?_, fun h1 w e => Mem_step_size D h1 w e⟩
  rw [Mem.appResponseWriter.Size, hsize]
  exact wrapInt_of_range _ hr.1 hr.2

/-- An instance of amended C4: a short write with an error, `Body()`, the caller
changing its slice, `WriteHeader` and a full write; the counts 1 and 2 add up
to 3. -/
theorem Size_is_sum_in_int_arithmetic_witness :
    (Mem.run scripted [[104, 105]] (Mem.fresh [(1, some (GoError.delegate 7))])
        [Mem.Event.Write ⟨0, 0, 2, 2⟩, Mem.Event.Body, Mem.Event.Assign ⟨0, 0, 2, 2⟩ 0 72,
          Mem.Event.WriteHeader 500, Mem.Event.Write ⟨0, 0, 2, 2⟩]).2.Size =
      (Mem.reportedCounts scripted [[104, 105]] (Mem.fresh [(1, some (GoError.delegate 7))])
        [Mem.Event.Write ⟨0, 0, 2, 2⟩, Mem.Event.Body, Mem.Event.Assign ⟨0, 0, 2, 2⟩ 0 72,
          Mem.Event.WriteHeader 500, Mem.Event.Write ⟨0, 0, 2, 2⟩]).sum :=
  (Size_is_sum_in_int_arithmetic scripted [(1, some (GoError.delegate 7))] [[104, 105]]
    [Mem.Event.Write ⟨0, 0, 2, 2⟩, Mem.Event.Body, Mem.Event.Assign ⟨0, 0, 2, 2⟩ 0 72,
      Mem.Event.WriteHeader 500, Mem.Event.Write ⟨0, 0, 2, 2⟩]).2.1 (by decide)

/-! ## The heap -/

theorem Heap_read_length (h : Mem.Heap) (s : Mem.Slice) (hs : h.holds s) :
    (h.read s).length = s.len := by
  obtain ⟨_, h2, h3⟩ := hs
  unfold Mem.Heap.read
  simp only [List.length_take, List.length_drop]
  omega

theorem Heap_store_length (h : Mem.Heap) (a pos : Nat) (bs : Bytes) :
    (h.store a pos bs).length = h.length := by
  simp [Mem.Heap.store]

theorem Heap_store_getD_same (h : Mem.Heap) (a pos : Nat) (bs : Bytes) (ha : a < h.length) :
    (h.store a pos bs).getD a [] =
      (h.getD a []).take pos ++ bs ++ (h.getD a []).drop (pos + bs.length) := by
  simp [Mem.Heap.store, List.getD_eq_getElem?_getD, ha]

theorem Heap_store_getD_other (h : Mem.Heap) (a b pos : Nat) (bs : Bytes) (hab : a ≠ b) :
    (h.store a pos bs).getD b [] = h.getD b [] := by
  simp [Mem.Heap.store, List.getD_eq_getElem?_getD, List.getElem?_set_ne hab]

theorem Heap_store_holds (h : Mem.Heap) (a pos : Nat) (bs : Bytes)
    (hin : pos + bs.length ≤ (h.getD a []).length) (s : Mem.Slice) (hs : h.holds s) :
    (h.store a pos bs).holds s := by
  obtain ⟨h1, h2, h3⟩ := hs
  refine ⟨by rw [Heap_store_length]; exact h1, ?_, h3⟩
  by_cases hsa : a = s.arr
  · subst hsa
    rw [Heap_store_getD_same h _ pos bs h1]
    simp only [List.length_append, List.length_take, List.length_drop]
    omega
  · rw [Heap_store_getD_other h a s.arr pos bs hsa]
    exact h2

theorem Heap_append_getD (h : Mem.Heap) (x : Bytes) (i : Nat) (hi : i < h.length) :
    (h ++ [x]).getD i [] = h.getD i [] := by
  simp [List.getD_eq_getElem?_getD, List.getElem?_append_left hi]

theorem Heap_append_getD_new (h : Mem.Heap) (x : Bytes) :
    (h ++ [x]).getD h.length [] = x := by
  simp [List.getD_eq_getElem?_getD]

theorem Heap_append_holds (h : Mem.Heap) (x : Bytes) (s : Mem.Slice) (hs : h.holds s) :
    Mem.Heap.holds (h ++ [x]) s := by
  obtain ⟨h1, h2, h3⟩ := hs
  refine ⟨by simp only [List.length_append, List.length_singleton]; omega, ?_, h3⟩
  rw [Heap_append_getD h x s.arr h1]
  exact h2

theorem Heap_append_read (h : Mem.Heap) (x : Bytes) (s : Mem.Slice) (hs : s.arr < h.length) :
    Mem.Heap.read (h ++ [x]) s = h.read s := by
  unfold Mem.Heap.read
  rw [Heap_append_getD h x s.arr hs]

/-- Reading a resliced buffer after `bs` was stored behind its old end. -/
theorem Heap_read_after_store (h : Mem.Heap) (s : Mem.Slice) (bs : Bytes) (hs : h.holds s)
    (hroom : s.len + bs.length ≤ s.cap) :
    (h.store s.arr (s.start + s.len) bs).read { s with len := s.len + bs.length } =
      h.read s ++ bs := by
  obtain ⟨h1, h2, h3⟩ := hs
  unfold Mem.Heap.read
  simp only
  rw [Heap_store_getD_same h s.arr _ bs h1]
  have hlen : s.start + s.len ≤ (h.getD s.arr []).length := by omega
  have e1 : List.drop s.start
      (List.take (s.start + s.len) (h.getD s.arr []) ++ bs ++
        List.drop (s.start + s.len + bs.length) (h.getD s.arr [])) =
      List.take s.len (List.drop s.start (h.getD s.arr [])) ++ bs ++
        List.drop (s.start + s.len + bs.length) (h.getD s.arr []) := by
    rw [List.append_assoc, List.drop_append_of_le_length (by
      simp only [List.length_take]; omega)]
    rw [List.drop_take, List.append_assoc]
    congr 2
    omega
  rw [e1, List.append_assoc, List.take_append_eq_append_take]
  have e2 : (List.take s.len (List.drop s.start (h.getD s.arr []))).length = s.len := by
    simp only [List.length_take, List.length_drop]; omega
  rw [e2, List.take_of_length_le (by rw [e2]; omega)]
  have e3 : s.len + bs.length - s.len = bs.length := by omega
  rw [e3, List.take_append_eq_append_take, List.take_of_length_le le_rfl]
  simp

/-! ## The retained buffer when only the wrapper writes to memory -/

/-- What `(*Buffer).Write` does to an unread buffer: the buffer afterwards holds
the old contents followed by the data, it is unread from its start and lies in
the heap, and every slice that lay in the heap still does. -/
theorem Buffer_Write_spec (h : Mem.Heap) (b : Mem.Buffer) (p : Mem.Slice)
    (hoff : b.off = 0) (hb : h.holds b.buf) (hp : h.holds p) :
    (b.Write h p).2.off = 0 ∧ (b.Write h p).1.holds (b.Write h p).2.buf ∧
      (b.Write h p).1.read (b.Write h p).2.buf = h.read b.buf ++ h.read p ∧
      ∀ s, h.holds s → (b.Write h p).1.holds s := by
  obtain ⟨buf, off⟩ := b
  simp only at hoff hb
  subst hoff
  have hplen := Heap_read_length h p hp
  have hblen := Heap_read_length h buf hb
  obtain ⟨hb1, hb2, hb3⟩ := hb
  by_cases hroom : p.len ≤ buf.cap - buf.len
  · have hin : buf.start + buf.len + (h.read p).length ≤ (h.getD buf.arr []).length := by
      rw [hplen]; omega
    have hrd := Heap_read_after_store h buf (h.read p) ⟨hb1, hb2, hb3⟩ (by rw [hplen]; omega)
    rw [hplen] at hrd
    simp only [Mem.Buffer.Write, hroom, if_true]
    refine ⟨trivial, ?_, hrd, fun s hs => Heap_store_holds h _ _ _ hin s hs⟩
    refine ⟨by rw [Heap_store_length]; exact hb1, ?_, by simp only; omega⟩
    rw [Heap_store_getD_same h _ _ _ hb1]
    simp only [List.length_append, List.length_take, List.length_drop]
    omega
  · have hslide : ¬ (p.len + (buf.len - 0) ≤ buf.cap / 2) := by omega
    have hreset : ¬ (buf.len - 0 = 0 ∧ (0 : Nat) ≠ 0) := by simp
    simp only [Mem.Buffer.Write, hroom, if_false, hreset, hslide]
    refine ⟨trivial, ?_, ?_, fun s hs => Heap_append_holds h _ s hs⟩
    · refine ⟨by simp, ?_, by simp only; omega⟩
      rw [Heap_append_getD_new]
      simp only [List.length_append, List.length_replicate, List.length_drop, hblen, hplen]
      omega
    · unfold Mem.Heap.read
      simp only [Heap_append_getD_new, List.drop_zero]
      have hl : (List.take buf.len (List.drop buf.start (h.getD buf.arr [])) ++
          List.take p.len (List.drop p.start (h.getD p.arr []))).length =
            buf.len - 0 + p.len := by
        have h1 : (List.take buf.len (List.drop buf.start (h.getD buf.arr []))).length
            = buf.len := hblen
        have h2 : (List.take p.len (List.drop p.start (h.getD p.arr []))).length
            = p.len := hplen
        rw [List.length_append, h1, h2]
        omega
      rw [List.take_append_of_le_length (by rw [hl])]
      rw [List.take_of_length_le (by rw [hl])]

theorem Mem_run_cons (D : HttpResponseWriter σ) (h : Mem.Heap) (w : Mem.appResponseWriter σ)
    (e : Mem.Event) (es : List Mem.Event) :
    Mem.run D h w (e :: es) = Mem.run D (Mem.step D h w e).1 (Mem.step D h w e).2 es := rfl

/-- A run of `Write` calls on a state with an unread buffer: the buffer
afterwards holds what it held before followed by the bytes passed. -/
theorem Mem_run_writes (D : HttpResponseWriter σ) (ds : List Mem.Slice) :
    ∀ (h : Mem.Heap) (w : Mem.appResponseWriter σ) (buf : Mem.Slice),
      w.body = some ⟨buf, 0⟩ → h.holds buf → (∀ d ∈ ds, h.holds d) →
      ∃ buf2, (Mem.run D h w (ds.map Mem.Event.Write)).2.body = some ⟨buf2, 0⟩ ∧
        (Mem.run D h w (ds.map Mem.Event.Write)).1.holds buf2 ∧
        (Mem.run D h w (ds.map Mem.Event.Write)).1.read buf2 =
          h.read buf ++ Mem.writtenData D h w (ds.map Mem.Event.Write) := by
  induction ds with
  | nil =>
    intro h w buf hb hbuf _
    exact ⟨buf, hb, hbuf, by simp [Mem.run, Mem.writtenData]⟩
  | cons d ds ih =>
    intro h w buf hb hbuf hds
    have hd : h.holds d := hds d (List.mem_cons_self d ds)
    obtain ⟨s1, s2, s3, s4⟩ := Buffer_Write_spec h ⟨buf, 0⟩ d rfl hbuf hd
    have hheap : (Mem.step D h w (Mem.Event.Write d)).1 = (Mem.Buffer.Write h ⟨buf, 0⟩ d).1 := by
      simp [Mem.step, Mem_Write_heap, hb]
    have hbody : (Mem.step D h w (Mem.Event.Write d)).2.body =
        some (Mem.Buffer.Write h ⟨buf, 0⟩ d).2 := by
      simp [Mem.step, Mem_Write_body, hb]
    have hbody2 : (Mem.step D h w (Mem.Event.Write d)).2.body =
        some ⟨(Mem.Buffer.Write h ⟨buf, 0⟩ d).2.buf, 0⟩ := by
      have hx : ∀ b : Mem.Buffer, b.off = 0 → b = ⟨b.buf, 0⟩ := by
        rintro ⟨bf, off⟩ h0
        simp only at h0
        rw [h0]
      rw [hbody]
      exact congrArg some (hx _ s1)
    have hrest : ∀ d2 ∈ ds, (Mem.step D h w (Mem.Event.Write d)).1.holds d2 := by
      intro d2 hd2
      rw [hheap]
      exact s4 d2 (hds d2 (List.mem_cons_of_mem d hd2))
    obtain ⟨buf2, r1, r2, r3⟩ := ih _ _ _ hbody2 (by rw [hheap]; exact s2) hrest
    refine ⟨buf2, ?_, ?_, ?_⟩
    · rw [List.map_cons, Mem_run_cons]; exact r1
    · rw [List.map_cons, Mem_run_cons]; exact r2
    · rw [List.map_cons, Mem_run_cons, r3]
      simp only [Mem.writtenData]
      rw [hheap, s3, List.append_assoc]

/-- A run of `Write` calls on a fresh instance, at least one: the buffer
afterwards holds the bytes passed. -/
theorem Mem_run_writes_fresh (D : HttpResponseWriter σ) (rw : σ) (h : Mem.Heap)
    (d : Mem.Slice) (ds : List Mem.Slice) (hds : ∀ x ∈ d :: ds, h.holds x) :
    ∃ buf2, (Mem.run D h (Mem.fresh rw) ((d :: ds).map Mem.Event.Write)).2.body =
        some ⟨buf2, 0⟩ ∧
      (Mem.run D h (Mem.fresh rw) ((d :: ds).map Mem.Event.Write)).1.holds buf2 ∧
      (Mem.run D h (Mem.fresh rw) ((d :: ds).map Mem.Event.Write)).1.read buf2 =
        Mem.writtenData D h (Mem.fresh rw) ((d :: ds).map Mem.Event.Write) := by
  have hd : h.holds d := hds d (List.mem_cons_self d ds)
  have hheap : (Mem.step D h (Mem.fresh rw) (Mem.Event.Write d)).1 = h := by
    simp [Mem.step, Mem_Write_heap, Mem.fresh]
  have hbody : (Mem.step D h (Mem.fresh rw) (Mem.Event.Write d)).2.body = some ⟨d, 0⟩ := by
    simp [Mem.step, Mem_Write_body, Mem.fresh, Mem.NewBuffer]
  have hrest : ∀ d2 ∈ ds, (Mem.step D h (Mem.fresh rw) (Mem.Event.Write d)).1.holds d2 := by
    intro d2 hd2
    rw [hheap]
    exact hds d2 (List.mem_cons_of_mem d hd2)
  obtain ⟨buf2, r1, r2, r3⟩ := Mem_run_writes D ds _ _ d hbody (by rw [hheap]; exact hd) hrest
  refine ⟨buf2, ?_, ?_, ?_⟩
  · rw [List.map_cons, Mem_run_cons]; exact r1
  · rw [List.map_cons, Mem_run_cons]; exact r2
  · rw [List.map_cons, Mem_run_cons, r3]
    simp only [Mem.writtenData]
    rw [hheap]

/-- What `Body` returns when the counter equals the length of an unread buffer
that lies in the heap: a new slice with the contents of the buffer, and a nil
error. -/
theorem Mem_Body_spec (h : Mem.Heap) (w : Mem.appResponseWriter σ) (buf : Mem.Slice)
    (hb : w.body = some ⟨buf, 0⟩) (hbuf : h.holds buf) (hs : w.size = (buf.len : Int)) :
    ∃ b h2 w2, w.Body h = Outcome.ok ((some b, none), h2, w2) ∧ h2.read b = h.read buf := by
  have hn : ¬ w.size < 0 := by rw [hs]; exact not_lt.mpr (Int.ofNat_nonneg _)
  have hnat : w.size.toNat = buf.len := by rw [hs]; exact Int.toNat_natCast _
  have hlen := Heap_read_length h buf hbuf
  have hrd : Mem.Heap.read (h ++ [List.replicate buf.len (0 : Byte)]) buf = h.read buf :=
    Heap_append_read h _ buf hbuf.1
  unfold Mem.appResponseWriter.Body
  simp only [hb, hn, if_false, Mem.Heap.make, hnat, Mem.Buffer.Read]
  by_cases h0 : buf.len ≤ 0
  · have hz : buf.len = 0 := Nat.le_zero.mp h0
    simp only [h0, if_true, hz]
    refine ⟨_, _, _, rfl, ?_⟩
    have : h.read buf = [] := List.length_eq_zero.mp (by rw [hlen, hz])
    rw [this]
    simp [Mem.Heap.read]
  · simp only [h0, if_false]
    refine ⟨_, _, _, rfl, ?_⟩
    rw [hrd]
    simp only [List.drop_zero, hlen, min_self]
    have htake : List.take buf.len (h.read buf) = h.read buf :=
      List.take_of_length_le (by rw [hlen])
    rw [htake]
    unfold Mem.Heap.read
    simp only
    rw [Heap_store_getD_same _ _ _ _ (by simp)]
    rw [Heap_append_getD_new]
    have hl2 : (List.take buf.len (List.drop buf.start (h.getD buf.arr []))).length
        = buf.len := hlen
    simp only [List.take_zero, List.nil_append, List.drop_zero, zero_add, hl2,
      List.drop_replicate, Nat.sub_self, List.replicate_zero, List.append_nil]
    exact List.take_of_length_le (by rw [hl2])

/-- C2, amended: take any sequence of `Write` calls on a fresh instance, made
one after the other with nothing but the wrapper writing to memory in between,
and any delegate behaviour, short and failed writes included. The retained
buffer then holds the concatenation of the bytes passed to `Write`, each slice
as it was when it was passed; and when `Size()` equals the number of those
bytes, the content returned by `Body()` is that concatenation, with a nil error
when there was a `Write`. -/
theorem retained_holds_what_was_written (D : HttpResponseWriter σ) (rw : σ) (h : Mem.Heap)
    (ds : List Mem.Slice) (hds : ∀ d ∈ ds, h.holds d) :
    (Mem.run D h (Mem.fresh rw) (ds.map Mem.Event.Write)).2.retained
        (Mem.run D h (Mem.fresh rw) (ds.map Mem.Event.Write)).1 =
        Mem.writtenData D h (Mem.fresh rw) (ds.map Mem.Event.Write) ∧
      ((Mem.run D h (Mem.fresh rw) (ds.map Mem.Event.Write)).2.Size =
          ((Mem.writtenData D h (Mem.fresh rw) (ds.map Mem.Event.Write)).length : Int) →
        (Mem.bodyContents
            ((Mem.run D h (Mem.fresh rw) (ds.map Mem.Event.Write)).2.Body
              (Mem.run D h (Mem.fresh rw) (ds.map Mem.Event.Write)).1)).getD [] =
            Mem.writtenData D h (Mem.fresh rw) (ds.map Mem.Event.Write) ∧
          (ds ≠ [] → ∃ b h2 w2,
            (Mem.run D h (Mem.fresh rw) (ds.map Mem.Event.Write)).2.Body
              (Mem.run D h (Mem.fresh rw) (ds.map Mem.Event.Write)).1 =
                Outcome.ok ((some b, none), h2, w2))) := by
  cases ds with
  | nil =>
    refine ⟨rfl, fun _ => ⟨rfl, fun hne => absurd rfl hne⟩⟩
  | cons d ds2 =>
    obtain ⟨buf2, r1, r2, r3⟩ := Mem_run_writes_fresh D rw h d ds2 hds
    refine ⟨?_, fun hsz => ?_⟩
    · simp only [Mem.appResponseWriter.retained, r1, List.drop_zero]
      exact r3
    · have hs : (Mem.run D h (Mem.fresh rw) ((d :: ds2).map Mem.Event.Write)).2.size =
          (buf2.len : Int) := by
        have := Heap_read_length _ buf2 r2
        rw [r3] at this
        rw [← this]
        exact hsz
      obtain ⟨b, h2, w2, hB, hrd⟩ := Mem_Body_spec _ _ buf2 r1 r2 hs
      refine ⟨?_, fun _ => ⟨b, h2, w2, hB⟩⟩
      rw [hB]
      simp only [Mem.bodyContents, Option.map_some', Option.getD_some]
      rw [hrd, r3]

/-- An instance of amended C2: the caller writes the first two bytes of its
array `1 2 3 4` and then the two bytes `2 3` in the middle of the same array;
the delegate takes both writes in full and returns an error for the first one. -/
theorem retained_holds_what_was_written_witness :
    (Mem.run scripted [[1, 2, 3, 4]] (Mem.fresh [(2, some (GoError.delegate 7))])
        ([⟨0, 0, 2, 4⟩, ⟨0, 1, 2, 3⟩].map Mem.Event.Write)).2.retained
        (Mem.run scripted [[1, 2, 3, 4]] (Mem.fresh [(2, some (GoError.delegate 7))])
          ([⟨0, 0, 2, 4⟩, ⟨0, 1, 2, 3⟩].map Mem.Event.Write)).1 = [1, 2, 2, 3] ∧
      (Mem.bodyContents
          ((Mem.run scripted [[1, 2, 3, 4]] (Mem.fresh [(2, some (GoError.delegate 7))])
              ([⟨0, 0, 2, 4⟩, ⟨0, 1, 2, 3⟩].map Mem.Event.Write)).2.Body
            (Mem.run scripted [[1, 2, 3, 4]] (Mem.fresh [(2, some (GoError.delegate 7))])
              ([⟨0, 0, 2, 4⟩, ⟨0, 1, 2, 3⟩].map Mem.Event.Write)).1)).getD [] =
        [1, 2, 2, 3] :=
  ⟨((retained_holds_what_was_written scripted [(2, some (GoError.delegate 7))]
      [[1, 2, 3, 4]] [⟨0, 0, 2, 4⟩, ⟨0, 1, 2, 3⟩]
      (by unfold Mem.Heap.holds; decide)).1).trans (by decide),
   (((retained_holds_what_was_written scripted [(2, some (GoError.delegate 7))]
      [[1, 2, 3, 4]] [⟨0, 0, 2, 4⟩, ⟨0, 1, 2, 3⟩]
      (by unfold Mem.Heap.holds; decide)).2 (by decide)).1).trans (by decide)⟩

/-! ## A caller that uses its buffer again -/

/-- C1: the caller writes `hi` from its buffer, puts `yo` into the same buffer
and writes it again, the delegate accepting both writes in full. The bytes
passed to `Write` are `hi` and `yo` and `Size()` is 4, but `Body()` returns
`yoyo` and not the concatenation `hiyo`. -/
theorem reused_buffer_changes_Body :
    Mem.writtenData scripted [[104, 105]] (Mem.fresh [])
        [Mem.Event.Write ⟨0, 0, 2, 2⟩, Mem.Event.Assign ⟨0, 0, 2, 2⟩ 0 121,
          Mem.Event.Assign ⟨0, 0, 2, 2⟩ 1 111, Mem.Event.Write ⟨0, 0, 2, 2⟩] =
        [104, 105, 121, 111] ∧
      Mem.reportedCounts scripted [[104, 105]] (Mem.fresh [])
        [Mem.Event.Write ⟨0, 0, 2, 2⟩, Mem.Event.Assign ⟨0, 0, 2, 2⟩ 0 121,
          Mem.Event.Assign ⟨0, 0, 2, 2⟩ 1 111, Mem.Event.Write ⟨0, 0, 2, 2⟩] = [2, 2] ∧
      (Mem.run scripted [[104, 105]] (Mem.fresh [])
        [Mem.Event.Write ⟨0, 0, 2, 2⟩, Mem.Event.Assign ⟨0, 0, 2, 2⟩ 0 121,
          Mem.Event.Assign ⟨0, 0, 2, 2⟩ 1 111, Mem.Event.Write ⟨0, 0, 2, 2⟩]).2.Size = 4 ∧
      Mem.bodyContents
        ((Mem.run scripted [[104, 105]] (Mem.fresh [])
            [Mem.Event.Write ⟨0, 0, 2, 2⟩, Mem.Event.Assign ⟨0, 0, 2, 2⟩ 0 121,
              Mem.Event.Assign ⟨0, 0, 2, 2⟩ 1 111, Mem.Event.Write ⟨0, 0, 2, 2⟩]).2.Body
          (Mem.run scripted [[104, 105]] (Mem.fresh [])
            [Mem.Event.Write ⟨0, 0, 2, 2⟩, Mem.Event.Assign ⟨0, 0, 2, 2⟩ 0 121,
              Mem.Event.Assign ⟨0, 0, 2, 2⟩ 1 111, Mem.Event.Write ⟨0, 0, 2, 2⟩]).1) =
        some [121, 111, 121, 111] := by
  decide

/-- C13: the caller writes the first two bytes `1 2` of its array `1 2 3 4` and
then the two bytes `2 3` in the middle of the same array, and does nothing
else. The second `Write` first appends its data to the retained buffer, which
is the caller's array, and so turns the data into `2 2` before it forwards it:
the delegate receives `Write(1 2)` and `Write(2 2)`. -/
theorem delegate_receives_overwritten_data :
    Mem.writtenData (recording scripted) [[1, 2, 3, 4]] (Mem.fresh ([], []))
        [Mem.Event.Write ⟨0, 0, 2, 4⟩, Mem.Event.Write ⟨0, 1, 2, 3⟩] = [1, 2, 2, 3] ∧
      (Mem.run (recording scripted) [[1, 2, 3, 4]] (Mem.fresh ([], []))
        [Mem.Event.Write ⟨0, 0, 2, 4⟩, Mem.Event.Write ⟨0, 1, 2, 3⟩]).2.ResponseWriter.2 =
        [DelegateCall.Write [1, 2], DelegateCall.Write [2, 2]] := by
  decide

/-- C16: the caller writes `ab` from its buffer, puts `cd` into the buffer and
writes it again, the delegate accepting both writes in full. Without any other
call the final `Body()` returns `cdcd`; with a `Body()` call inserted after the
first write it returns `abcd`. `Size()` is 4 both times. -/
theorem inserted_Body_changes_final_Body :
    Mem.bodyContents
        ((Mem.run scripted [[97, 98]] (Mem.fresh [])
            [Mem.Event.Write ⟨0, 0, 2, 2⟩, Mem.Event.Assign ⟨0, 0, 2, 2⟩ 0 99,
              Mem.Event.Assign ⟨0, 0, 2, 2⟩ 1 100, Mem.Event.Write ⟨0, 0, 2, 2⟩]).2.Body
          (Mem.run scripted [[97, 98]] (Mem.fresh [])
            [Mem.Event.Write ⟨0, 0, 2, 2⟩, Mem.Event.Assign ⟨0, 0, 2, 2⟩ 0 99,
              Mem.Event.Assign ⟨0, 0, 2, 2⟩ 1 100, Mem.Event.Write ⟨0, 0, 2, 2⟩]).1) =
        some [99, 100, 99, 100] ∧
      Mem.bodyContents
        ((Mem.run scripted [[97, 98]] (Mem.fresh [])
            [Mem.Event.Write ⟨0, 0, 2, 2⟩, Mem.Event.Body, Mem.Event.Assign ⟨0, 0, 2, 2⟩ 0 99,
              Mem.Event.Assign ⟨0, 0, 2, 2⟩ 1 100, Mem.Event.Write ⟨0, 0, 2, 2⟩]).2.Body
          (Mem.run scripted [[97, 98]] (Mem.fresh [])
            [Mem.Event.Write ⟨0, 0, 2, 2⟩, Mem.Event.Body, Mem.Event.Assign ⟨0, 0, 2, 2⟩ 0 99,
              Mem.Event.Assign ⟨0, 0, 2, 2⟩ 1 100, Mem.Event.Write ⟨0, 0, 2, 2⟩]).1) =
        some [97, 98, 99, 100] ∧
      (Mem.run scripted [[97, 98]] (Mem.fresh [])
        [Mem.Event.Write ⟨0, 0, 2, 2⟩, Mem.Event.Assign ⟨0, 0, 2, 2⟩ 0 99,
          Mem.Event.Assign ⟨0, 0, 2, 2⟩ 1 100, Mem.Event.Write ⟨0, 0, 2, 2⟩]).2.Size = 4 ∧
      (Mem.run scripted [[97, 98]] (Mem.fresh [])
        [Mem.Event.Write ⟨0, 0, 2, 2⟩, Mem.Event.Body, Mem.Event.Assign ⟨0, 0, 2, 2⟩ 0 99,
          Mem.Event.Assign ⟨0, 0, 2, 2⟩ 1 100, Mem.Event.Write ⟨0, 0, 2, 2⟩]).2.Size = 4 := by
  decide

/-- C17: the caller writes the three bytes `1 2 3` from its buffer, puts
`7 8 9` into the buffer and writes it again; the delegate reports 3 bytes for
the first write and 1 byte and an error for the second. `Size()` is 4 and the
bytes passed to `Write` are `1 2 3 7 8 9`, but `Body()` returns `7 8 9 7` and
not their first four bytes `1 2 3 7`. -/
theorem reused_buffer_changes_first_Size_bytes :
    Mem.writtenData scripted [[1, 2, 3]] (Mem.fresh [(3, none), (1, some (GoError.delegate 7))])
        [Mem.Event.Write ⟨0, 0, 3, 3⟩, Mem.Event.Assign ⟨0, 0, 3, 3⟩ 0 7,
          Mem.Event.Assign ⟨0, 0, 3, 3⟩ 1 8, Mem.Event.Assign ⟨0, 0, 3, 3⟩ 2 9,
          Mem.Event.Write ⟨0, 0, 3, 3⟩] = [1, 2, 3, 7, 8, 9] ∧
      (Mem.run scripted [[1, 2, 3]] (Mem.fresh [(3, none), (1, some (GoError.delegate 7))])
        [Mem.Event.Write ⟨0, 0, 3, 3⟩, Mem.Event.Assign ⟨0, 0, 3, 3⟩ 0 7,
          Mem.Event.Assign ⟨0, 0, 3, 3⟩ 1 8, Mem.Event.Assign ⟨0, 0, 3, 3⟩ 2 9,
          Mem.Event.Write ⟨0, 0, 3, 3⟩]).2.Size = 4 ∧
      Mem.bodyContents
        ((Mem.run scripted [[1, 2, 3]]
            (Mem.fresh [(3, none), (1, some (GoError.delegate 7))])
            [Mem.Event.Write ⟨0, 0, 3, 3⟩, Mem.Event.Assign ⟨0, 0, 3, 3⟩ 0 7,
              Mem.Event.Assign ⟨0, 0, 3, 3⟩ 1 8, Mem.Event.Assign ⟨0, 0, 3, 3⟩ 2 9,
              Mem.Event.Write ⟨0, 0, 3, 3⟩]).2.Body
          (Mem.run scripted [[1, 2, 3]]
            (Mem.fresh [(3, none), (1, some (GoError.delegate 7))])
            [Mem.Event.Write ⟨0, 0, 3, 3⟩, Mem.Event.Assign ⟨0, 0, 3, 3⟩ 0 7,
              Mem.Event.Assign ⟨0, 0, 3, 3⟩ 1 8, Mem.Event.Assign ⟨0, 0, 3, 3⟩ 2 9,
              Mem.Event.Write ⟨0, 0, 3, 3⟩]).1) =
        some [7, 8, 9, 7] := by
  decide

end Web
